import Mathlib

/-!
Verification of the modular-reconfiguration core (`reconfiguration/` package)
against its design document.

The Python sources are shallowly embedded:

* transforms (`numpy` 4x4 `float64` arrays) become real matrices
  `Matrix (Fin 4) (Fin 4) ℝ`; the shape and dtype checks of the source are
  type-level facts here;
* Python dictionaries become insertion-ordered association lists with
  first-match lookup and replace-in-place update, matching dict semantics;
* raised exceptions become `Except`/outcome values; state mutated through a
  raised exception is returned alongside the outcome;
* the external joint-kinematics collaborator (`ubot_kin.T_ax_site`) and the
  local attach solver (which mutates only the joint-angle table, never the
  graph) are parameters of the embedding, as the design document treats the
  former as an opaque pure collaborator and no claim depends on the
  latter's internals.
-/

abbrev Vec3 := Fin 3 → ℝ
abbrev Mat3 := Matrix (Fin 3) (Fin 3) ℝ
abbrev Mat4 := Matrix (Fin 4) (Fin 4) ℝ

/-- `SiteRef` from `connection_graph.py`: identifies one connector site. -/
structure SiteRef where
  module_id : Int
  half : String
  site : String
deriving DecidableEq, Repr

/-- The comparison key tuple `(module_id, half, site)` used by
`EdgeKey.__hash__` and `EdgeKey.normalized`. -/
def siteKey (s : SiteRef) : Int × String × String :=
  (s.module_id, s.half, s.site)

/-- Python's lexicographic `<` on `(int, str, str)` tuples. -/
def tupLt (k1 k2 : Int × String × String) : Bool :=
  k1.1 < k2.1 ||
    (k1.1 == k2.1 && (k1.2.1 < k2.2.1 ||
      (k1.2.1 == k2.2.1 && decide (k1.2.2 < k2.2.2))))

/-- `EdgeKey` from `connection_graph.py`: a pair of site refs with
symmetric (unordered) equality. -/
structure EdgeKey where
  a : SiteRef
  b : SiteRef
deriving Repr

/-- `EdgeKey.__eq__`: unordered-pair equality. -/
def edgeKeyEqb (k1 k2 : EdgeKey) : Bool :=
  (k1.a == k2.a && k1.b == k2.b) || (k1.a == k2.b && k1.b == k2.a)

/-- The sorted tuple pair fed to `hash` by `EdgeKey.__hash__`. -/
def EdgeKey.hashPair (k : EdgeKey) :
    (Int × String × String) × (Int × String × String) :=
  if tupLt (siteKey k.a) (siteKey k.b) then (siteKey k.a, siteKey k.b)
  else (siteKey k.b, siteKey k.a)

/-- `EdgeKey.__hash__`, parametric in the underlying tuple-hash function
(CPython's tuple hash is some fixed function of the sorted pair). -/
def EdgeKey.hashVal (f : (Int × String × String) × (Int × String × String) → Int)
    (k : EdgeKey) : Int :=
  f k.hashPair

/-- `EdgeKey.normalized`: store the lexicographically smaller endpoint first. -/
def EdgeKey.normalized (a_start b_end : SiteRef) : EdgeKey :=
  if tupLt (siteKey a_start) (siteKey b_end) then ⟨a_start, b_end⟩
  else ⟨b_end, a_start⟩

/-- `ConnectionEvent` from `connection_graph.py`.  `kind` is the literal
string tag of the source (`"attach"` / `"detach"`). -/
structure ConnectionEvent where
  kind : String
  a : SiteRef
  b : SiteRef
  yaw_snap_deg : Option Int := none
  T_a_b : Option Mat4 := none

/-- `ConnectionEdge` from `connection_graph.py`. -/
structure ConnectionEdge where
  key : EdgeKey
  yaw_snap_deg : Int
  T_a_b : Mat4
  active : Bool := true

/-- `ConnectionGraph`: `edges` is a Python dict `EdgeKey -> ConnectionEdge`,
modelled as an insertion-ordered list of entries whose dict key is
`entry.key`, with lookup by `EdgeKey.__eq__`. -/
structure ConnectionGraph where
  edges : List ConnectionEdge

/-- Dict lookup `self.edges[key]` / `key in self.edges` (first `==` match). -/
def dictFind (l : List ConnectionEdge) (k : EdgeKey) : Option ConnectionEdge :=
  l.find? (fun e => edgeKeyEqb e.key k)

/-- Dict store `self.edges[e.key] = e`: replace the first entry whose key
compares `==`, keeping its position, else append. -/
def dictSet : List ConnectionEdge → ConnectionEdge → List ConnectionEdge
  | [], e => [e]
  | x :: xs, e => if edgeKeyEqb x.key e.key then e :: xs else x :: dictSet xs e

/-- In-place mutation `self.edges[key].active = False`: deactivate the first
entry whose key compares `==` to `k`. -/
def dictDeactivate : List ConnectionEdge → EdgeKey → List ConnectionEdge
  | [], _ => []
  | x :: xs, k =>
    if edgeKeyEqb x.key k then { x with active := false } :: xs
    else x :: dictDeactivate xs k

/-- `ConnectionGraph.active_edges`. -/
def ConnectionGraph.active_edges (g : ConnectionGraph) : List ConnectionEdge :=
  g.edges.filter (fun e => e.active)

/-- `ConnectionGraph.site_is_free`. -/
def ConnectionGraph.site_is_free (g : ConnectionGraph) (s : SiteRef) : Bool :=
  g.active_edges.all (fun e => !(e.key.a == s) && !(e.key.b == s))

/-- `ConnectionGraph.is_connected`. -/
def ConnectionGraph.is_connected (g : ConnectionGraph) (a b : SiteRef) : Bool :=
  match dictFind g.edges (EdgeKey.normalized a b) with
  | some e => e.active
  | none => false

/-- `ConnectionGraph.apply`.  A raised `ValueError` becomes `.error`; the
source raises before any mutation, so an error leaves the graph it was
called on untouched. -/
def ConnectionGraph.apply (g : ConnectionGraph) (ev : ConnectionEvent) :
    Except String ConnectionGraph :=
  if ev.kind == "attach" then
    match ev.yaw_snap_deg, ev.T_a_b with
    | some yaw, some T =>
      if !g.site_is_free ev.a then .error "Site a is already connected"
      else if !g.site_is_free ev.b then .error "Site b is already connected"
      else
        .ok ⟨dictSet g.edges
          { key := EdgeKey.normalized ev.a ev.b,
            yaw_snap_deg := yaw, T_a_b := T, active := true }⟩
    | _, _ => .error "Attach event must have yaw_snap_deg and T_a_b"
  else if ev.kind == "detach" then
    match dictFind g.edges (EdgeKey.normalized ev.a ev.b) with
    | some e =>
      if e.active then
        .ok ⟨dictDeactivate g.edges (EdgeKey.normalized ev.a ev.b)⟩
      else .ok g
    | none => .ok g
  else
    .ok g

/-- The graph a Python caller observes after `apply`: on a raise the graph
object is unchanged (all raises in `apply` precede any write). -/
def applyOrKeep (g : ConnectionGraph) (ev : ConnectionEvent) : ConnectionGraph :=
  match g.apply ev with
  | .ok g2 => g2
  | .error _ => g

/-- Number of active edges, `len(graph.active_edges())`. -/
def activeCount (g : ConnectionGraph) : Nat :=
  g.active_edges.length

/-! ## Rigid-transform and angle utilities (`ubot/fk_sites.py`, numpy) -/

noncomputable def deg2rad (d : ℝ) : ℝ := d * Real.pi / 180

noncomputable def rad2deg (r : ℝ) : ℝ := r * 180 / Real.pi

/-- `np.arctan2 y x`, via the complex argument. -/
noncomputable def atan2 (y x : ℝ) : ℝ := Complex.arg ((x : ℂ) + (y : ℂ) * Complex.I)

/-- `fk_sites.rotz` (argument in degrees). -/
noncomputable def rotz3 (d : ℝ) : Mat3 :=
  let c := Real.cos (deg2rad d)
  let s := Real.sin (deg2rad d)
  Matrix.of ![![c, -s, 0], ![s, c, 0], ![0, 0, 1]]

/-- `fk_sites.roty` (argument in degrees). -/
noncomputable def roty3 (d : ℝ) : Mat3 :=
  let c := Real.cos (deg2rad d)
  let s := Real.sin (deg2rad d)
  Matrix.of ![![c, 0, s], ![0, 1, 0], ![-s, 0, c]]

/-- `make_T` from `kinematic_executor.py`: homogeneous `[R, p; 0 0 0 1]`. -/
noncomputable def make_T (R : Mat3) (p : Vec3) : Mat4 :=
  Matrix.of ![![R 0 0, R 0 1, R 0 2, p 0],
              ![R 1 0, R 1 1, R 1 2, p 1],
              ![R 2 0, R 2 1, R 2 2, p 2],
              ![0, 0, 0, 1]]

/-- Rotation block `T[:3,:3]`. -/
def rotOf (T : Mat4) : Mat3 :=
  Matrix.of fun i j => T i.castSucc j.castSucc

/-- Translation column `T[:3,3]`. -/
def posOf (T : Mat4) : Vec3 := fun i => T i.castSucc 3

/-- Column `j` of a 3x3 matrix (e.g. a frame axis). -/
def col (R : Mat3) (j : Fin 3) : Vec3 := fun i => R i j

def dot3 (u v : Vec3) : ℝ := u 0 * v 0 + u 1 * v 1 + u 2 * v 2

def cross3 (u v : Vec3) : Vec3 :=
  ![u 1 * v 2 - u 2 * v 1, u 2 * v 0 - u 0 * v 2, u 0 * v 1 - u 1 * v 0]

/-- `np.linalg.norm` of a 3-vector. -/
noncomputable def norm3 (u : Vec3) : ℝ := Real.sqrt (dot3 u u)

/-! ## `site_alignment.py` -/

/-- `compute_rel_yaw_deg`: signed in-plane yaw of the child frame's y axis
relative to the parent frame's y axis, about the parent z axis. -/
noncomputable def compute_rel_yaw_deg (R_parent R_child : Mat3) : ℝ :=
  let z_p := col R_parent 2
  let y_p := col R_parent 1
  let y_c := col R_child 1
  let y_c_proj : Vec3 := fun i => y_c i - dot3 y_c z_p * z_p i
  let n := norm3 y_c_proj
  if n < 1e-8 then 0
  else
    let y_u : Vec3 := fun i => y_c_proj i / n
    let dot_yy := dot3 y_p y_u
    let sin_val := dot3 z_p (cross3 y_p y_u)
    rad2deg (atan2 sin_val dot_yy)

/-- The metrics dict produced by `compute_constraint_metrics`. -/
structure Metrics where
  pos_err : ℝ
  z_dot : ℝ
  rel_yaw_deg : ℝ

/-- `compute_constraint_metrics`.  The source assigns `R_c_aligned` twice;
the second assignment `R_c_flip @ rotz(-yaw_snap_deg)` is the one used. -/
noncomputable def compute_constraint_metrics (Tw_parent_site Tw_child_site : Mat4)
    (yaw_snap_deg : Int) : Metrics :=
  let R_p := rotOf Tw_parent_site
  let R_c := rotOf Tw_child_site
  let p_p := posOf Tw_parent_site
  let p_c := posOf Tw_child_site
  let pos_err := norm3 (fun i => p_p i - p_c i)
  let z_dot := dot3 (col R_p 2) (col R_c 2)
  let R_c_flip := R_c * roty3 180
  let R_c_aligned := R_c_flip * rotz3 (-(yaw_snap_deg : ℝ))
  { pos_err := pos_err, z_dot := z_dot,
    rel_yaw_deg := compute_rel_yaw_deg R_p R_c_aligned }

/-! ## `connection_feasibility.py` -/

structure FeasibilityParams where
  pos_tol : ℝ := 1e-3
  z_dot_max : ℝ := -0.999
  yaw_candidates_deg : List Int := [0, 90, 180, 270]
  yaw_tol_deg : ℝ := 2.0
  enable_local_solve : Bool := false

structure FeasibilityResult where
  feasible : Bool := false
  best_yaw_deg : Option Int := none
  pos_err : ℝ := 0.0
  z_dot : ℝ := 0.0
  raw_yaw_after_flip_deg : ℝ := 0.0
  residual_yaw_deg : ℝ := 0.0
  candidate_table : List (Int × ℝ) := []
  reason : String := ""

/-- The candidate loop of `check_attach_feasible`.  The accumulator holds
`(best_yaw, best_abs_residual)`; the source initialises the residual to
`float('inf')`, which every real beats, modelled by the `none` state.  Each
candidate appends its signed residual to the table and replaces the best on
a strict `<`, so the first candidate of a tie is kept. -/
noncomputable def yawScan (res : Int → ℝ) :
    List Int → List (Int × ℝ) → Option (Int × ℝ) → List (Int × ℝ) × Option (Int × ℝ)
  | [], table, best => (table, best)
  | y :: ys, table, best =>
    let r := res y
    let table2 := table ++ [(y, r)]
    match best with
    | none => yawScan res ys table2 (some (y, |r|))
    | some (b0, r0) =>
      if |r| < r0 then yawScan res ys table2 (some (y, |r|))
      else yawScan res ys table2 (some (b0, r0))

/-- `check_attach_feasible`: position gate, normal gate, then yaw-snap
candidate search.  If the candidate list were empty the source would leave
`best_yaw=None` and an infinite residual (hence infeasible, reason `"yaw"`);
the unreachable-by-default infinite residual is reported here as `0`. -/
noncomputable def check_attach_feasible (Tw_site_a Tw_site_b : Mat4)
    (params : FeasibilityParams) : FeasibilityResult :=
  let metrics_base := compute_constraint_metrics Tw_site_a Tw_site_b 0
  let pos_err := metrics_base.pos_err
  let z_dot := metrics_base.z_dot
  if pos_err > params.pos_tol then
    { feasible := false, best_yaw_deg := none, pos_err := pos_err, z_dot := z_dot,
      raw_yaw_after_flip_deg := 0, residual_yaw_deg := 0,
      candidate_table := [], reason := "pos" }
  else if z_dot > params.z_dot_max then
    { feasible := false, best_yaw_deg := none, pos_err := pos_err, z_dot := z_dot,
      raw_yaw_after_flip_deg := 0, residual_yaw_deg := 0,
      candidate_table := [], reason := "normal" }
  else
    let raw := (compute_constraint_metrics Tw_site_a Tw_site_b 0).rel_yaw_deg
    let scan := yawScan
      (fun y => (compute_constraint_metrics Tw_site_a Tw_site_b y).rel_yaw_deg)
      params.yaw_candidates_deg [] none
    match scan.2 with
    | some (best_yaw, best_abs) =>
      let feas : Bool := best_abs ≤ params.yaw_tol_deg
      { feasible := feas, best_yaw_deg := some best_yaw,
        pos_err := pos_err, z_dot := z_dot,
        raw_yaw_after_flip_deg := raw, residual_yaw_deg := best_abs,
        candidate_table := scan.1,
        reason := if feas then "" else "yaw" }
    | none =>
      { feasible := false, best_yaw_deg := none,
        pos_err := pos_err, z_dot := z_dot,
        raw_yaw_after_flip_deg := raw, residual_yaw_deg := 0,
        candidate_table := scan.1, reason := "yaw" }

/-! ## `kinematic_compiler.py` -/

/-- `KinematicAttachment`. -/
structure KinematicAttachment where
  parent : Int
  child : Int
  parent_site : SiteRef
  child_site : SiteRef
  T_parent_child : Mat4
  yaw_snap_deg : Int

/-- `KinematicTree`.  `parent_of` and `attachments` are insertion-ordered
int-keyed dicts. -/
structure KinematicTree where
  root : Int
  parent_of : List (Int × Option Int)
  attachments : List (Int × KinematicAttachment)
  order : List Int

/-- Int-keyed dict lookup. -/
def alFind {α : Type} (l : List (Int × α)) (k : Int) : Option α :=
  (l.find? (fun p => p.1 == k)).map Prod.snd

/-- Int-keyed dict store: replace in place or append. -/
def alSet {α : Type} : List (Int × α) → Int → α → List (Int × α)
  | [], k, v => [(k, v)]
  | x :: xs, k, v => if x.1 == k then (k, v) :: xs else x :: alSet xs k v

/-- `dict.update`: store every entry of `upd` into `base`, in order. -/
def alUpdate {α : Type} (base upd : List (Int × α)) : List (Int × α) :=
  upd.foldl (fun acc p => alSet acc p.1 p.2) base

/-- Python `set.add` on an insertion-ordered representation. -/
def addNbr (l : List Int) (m : Int) : List Int :=
  if m ∈ l then l else l ++ [m]

/-- The neighbour set `adj[u]` built by `compile_kinematic_tree` from the
active edges (each edge contributes both directions). -/
def adjOf (g : ConnectionGraph) (u : Int) : List Int :=
  g.active_edges.foldl (fun acc e =>
    let m1 := e.key.a.module_id
    let m2 := e.key.b.module_id
    let acc2 := if m1 == u then addNbr acc m2 else acc
    if m2 == u then addNbr acc2 m1 else acc2) []

/-- `sorted(adj.get(u, set()))`: neighbour module-ids in ascending order. -/
def sortedNeighbors (g : ConnectionGraph) (u : Int) : List Int :=
  List.insertionSort (· ≤ ·) (adjOf g u)

/-- `tuple(sorted([m1, m2]))`. -/
def sortedPair (m1 m2 : Int) : Int × Int :=
  if m1 ≤ m2 then (m1, m2) else (m2, m1)

/-- `edge_map[tuple(sorted([u,v]))]`: the dict is written while iterating
`active_edges()`, so for duplicate module pairs the last active edge wins. -/
def edgeMapFind (g : ConnectionGraph) (u v : Int) : Option ConnectionEdge :=
  (g.active_edges.filter (fun e =>
    sortedPair e.key.a.module_id e.key.b.module_id == sortedPair u v)).getLast?

/-- BFS working state of `compile_kinematic_tree`. -/
structure BfsState where
  visited : List Int
  parent_of : List (Int × Option Int)
  attachments : List (Int × KinematicAttachment)
  order : List Int
  queue : List Int

/-- Body of the `for v in neighbors` loop: a visited neighbour is silently
skipped; a new one is recorded with its parent and attachment and enqueued.
A missing `edge_map` entry would be a `KeyError`.  Traversing an edge
against its canonical `a` side inverts the stored transform with
`np.linalg.inv`, which raises `LinAlgError` exactly on a singular input;
on a nonsingular input Mathlib's matrix inverse agrees with it, so the
singular case is modelled as the raised error, never the total inverse. -/
noncomputable def visitNeighbor (g : ConnectionGraph) (u : Int) (st : BfsState)
    (v : Int) : Except String BfsState :=
  if v ∈ st.visited then .ok st
  else
    match edgeMapFind g u v with
    | none => .error "KeyError: edge_map"
    | some edge =>
      let site_a := edge.key.a
      let site_b := edge.key.b
      if u == site_a.module_id then
        .ok { visited := st.visited ++ [v],
              parent_of := alSet st.parent_of v (some u),
              attachments := alSet st.attachments v
                ⟨u, v, site_a, site_b, edge.T_a_b, edge.yaw_snap_deg⟩,
              order := st.order ++ [v],
              queue := st.queue ++ [v] }
      else if edge.T_a_b.det = 0 then
        .error "LinAlgError: Singular matrix"
      else
        .ok { visited := st.visited ++ [v],
              parent_of := alSet st.parent_of v (some u),
              attachments := alSet st.attachments v
                ⟨u, v, site_b, site_a, edge.T_a_b⁻¹, edge.yaw_snap_deg⟩,
              order := st.order ++ [v],
              queue := st.queue ++ [v] }

/-- The `while queue` loop, with explicit fuel.  `compile_kinematic_tree`
supplies enough fuel that the `"out of fuel"` branch is unreachable (proved
below for arbitrary graphs). -/
noncomputable def bfsLoop (g : ConnectionGraph) : Nat → BfsState → Except String BfsState
  | 0, st => if st.queue.isEmpty then .ok st else .error "out of fuel"
  | fuel + 1, st =>
    match st.queue with
    | [] => .ok st
    | u :: rest =>
      match (sortedNeighbors g u).foldlM (visitNeighbor g u) { st with queue := rest } with
      | .ok st2 => bfsLoop g fuel st2
      | .error e => .error e

/-- A finite superset of every module id BFS can ever visit. -/
def moduleUniverse (g : ConnectionGraph) (root : Int) : List Int :=
  root :: g.active_edges.foldr
    (fun e acc => e.key.a.module_id :: e.key.b.module_id :: acc) []

/-- `compile_kinematic_tree`. -/
noncomputable def compile_kinematic_tree (root : Int) (g : ConnectionGraph) :
    Except String KinematicTree :=
  match bfsLoop g (moduleUniverse g root).length
      ⟨[root], [(root, none)], [], [root], [root]⟩ with
  | .error e => .error e
  | .ok stF => .ok ⟨root, stF.parent_of, stF.attachments, stF.order⟩

/-! ## `kinematic_executor.py` (stored-edge mode) -/

/-- One component of `np.allclose(x, target)` with `atol=1e-10` and the
default `rtol=1e-5`. -/
def allcloseTo (x target : ℝ) : Prop := |x - target| ≤ 1e-10 + 1e-5 * |target|

/-- `assert_T`: the last row must be `[0,0,0,1]` up to `allclose`; the
shape-`(4,4)` and dtype-`float64` checks are type-level facts of the
embedding. -/
def validT (T : Mat4) : Prop :=
  allcloseTo (T 3 0) 0 ∧ allcloseTo (T 3 1) 0 ∧
    allcloseTo (T 3 2) 0 ∧ allcloseTo (T 3 3) 1

noncomputable instance : DecidablePred validT := fun _ => by
  unfold validT allcloseTo; infer_instance

/-- `assert_T` as a failing check (an `AssertionError` becomes `.error`). -/
noncomputable def assertT (T : Mat4) : Except String Unit :=
  if validT T then .ok () else .error "assert_T: last row"

/-- `WorldPoseResult`.  `reachable` is `set(tree.order)`, kept as the order
list and read through membership. -/
structure WorldPoseResult where
  T_world : List (Int × Mat4)
  reachable : List Int

/-- One step of the stored-edge propagation loop over `tree.order[1:]`:
`T_world[child] = T_world[parent] @ att.T_parent_child`, validated. -/
noncomputable def propStep (tree : KinematicTree) (acc : List (Int × Mat4))
    (child : Int) : Except String (List (Int × Mat4)) :=
  match alFind tree.parent_of child with
  | none => .error "KeyError: parent_of"
  | some none => .error "assert: no parent"
  | some (some parent) =>
    match alFind tree.attachments child with
    | none => .error "KeyError: attachments"
    | some att =>
      match alFind acc parent with
      | none => .error "KeyError: T_world parent"
      | some Tp =>
        match assertT (Tp * att.T_parent_child) with
        | .error e => .error e
        | .ok _ => .ok (alSet acc child (Tp * att.T_parent_child))

/-- `propagate_world_poses` (stored-edge mode): `world[child] =
world[parent] * attachment.T_parent_child`, validating every transform. -/
noncomputable def propagate_world_poses (tree : KinematicTree)
    (T_world_root : Mat4) : Except String WorldPoseResult :=
  match assertT T_world_root with
  | .error e => .error e
  | .ok _ =>
    match (tree.order.drop 1).foldlM (propStep tree)
        (alSet [] tree.root T_world_root) with
    | .error e => .error e
    | .ok final => .ok ⟨final, tree.order⟩

/-! ## `kinematic_executor_v2.py` (constraint mode) -/

/-- The external joint-kinematics collaborator `ubot_kin.T_ax_site`,
an opaque deterministic pure function `(q, site_name) -> 4x4 transform`. -/
abbrev FkFun := (ℝ × ℝ) → String → Mat4

/-- `site_naming.site_full_name`. -/
def site_full_name (s : SiteRef) : String :=
  s.half ++ "_connector_" ++ s.site

/-- One step of the constraint-mode loop: the parent-to-child transform is
derived live from the joint angles and the yaw-snap/flip constraint as
`T_parent_Psite @ T_Psite_Csite @ inv(T_child_Csite)`, where
`T_Psite_Csite = make_T(rotz(yaw_snap) @ roty(180), 0)` and the two site
transforms come from the external collaborator `fk`.  (`np.linalg.inv`
raises on singular input; the matrix inverse here is total, and every
scenario below uses invertible site transforms.)  Both the derived relative
transform and the propagated world transform are validated. -/
noncomputable def propStepSites (fk : FkFun) (q_by_module : List (Int × (ℝ × ℝ)))
    (tree : KinematicTree) (acc : List (Int × Mat4)) (child : Int) :
    Except String (List (Int × Mat4)) :=
  match alFind tree.parent_of child with
  | none => .error "KeyError: parent_of"
  | some none => .error "assert: no parent"
  | some (some parent) =>
    match alFind tree.attachments child with
    | none => .error "KeyError: attachments"
    | some att =>
      match alFind q_by_module parent, alFind q_by_module child with
      | none, _ => .error "KeyError: q_by_module"
      | _, none => .error "KeyError: q_by_module"
      | some q_parent, some q_child =>
        match assertT (fk q_parent (site_full_name att.parent_site) *
            make_T (rotz3 (att.yaw_snap_deg : ℝ) * roty3 180) (fun _ => 0) *
            (fk q_child (site_full_name att.child_site))⁻¹) with
        | .error e => .error e
        | .ok _ =>
          match alFind acc parent with
          | none => .error "KeyError: T_world parent"
          | some Tp =>
            match assertT (Tp * (fk q_parent (site_full_name att.parent_site) *
                make_T (rotz3 (att.yaw_snap_deg : ℝ) * roty3 180) (fun _ => 0) *
                (fk q_child (site_full_name att.child_site))⁻¹)) with
            | .error e => .error e
            | .ok _ =>
              .ok (alSet acc child
                (Tp * (fk q_parent (site_full_name att.parent_site) *
                  make_T (rotz3 (att.yaw_snap_deg : ℝ) * roty3 180) (fun _ => 0) *
                  (fk q_child (site_full_name att.child_site))⁻¹)))

/-- `propagate_world_poses_with_sites`. -/
noncomputable def propagate_world_poses_with_sites (tree : KinematicTree)
    (T_world_root : Mat4) (q_by_module : List (Int × (ℝ × ℝ))) (fk : FkFun) :
    Except String WorldPoseResult :=
  match assertT T_world_root with
  | .error e => .error e
  | .ok _ =>
    match (tree.order.drop 1).foldlM (propStepSites fk q_by_module tree)
        (alSet [] tree.root T_world_root) with
    | .error e => .error e
    | .ok final => .ok ⟨final, tree.order⟩

/-! ## `connection_api.py` -/

/-- `ExecutorWrapper`: cached world poses, joint-angle table, and the
joint-kinematics collaborator. -/
structure ExecutorWrapper where
  T_world : List (Int × Mat4)
  q_by_module : List (Int × (ℝ × ℝ))
  fk : FkFun

/-- `get_site_Tw`: `T_world[module_id] @ ubot_kin.T_ax_site(q, site_name)`;
a missing dict entry is a `KeyError`. -/
noncomputable def get_site_Tw (ex : ExecutorWrapper) (module_id : Int)
    (site_name : String) : Except String Mat4 :=
  match alFind ex.T_world module_id with
  | none => .error "KeyError: T_world"
  | some Tw =>
    match alFind ex.q_by_module module_id with
    | none => .error "KeyError: q_by_module"
    | some q => .ok (Tw * ex.fk q site_name)

/-- `rebuild_and_propagate`: recompile from the graph and re-propagate
world poses in constraint mode. -/
noncomputable def rebuild_and_propagate (ex : ExecutorWrapper)
    (g : ConnectionGraph) (root_id : Int) :
    Except String (List Int × List (Int × Mat4)) :=
  match compile_kinematic_tree root_id g with
  | .error e => .error e
  | .ok tree =>
    match alFind ex.T_world root_id with
    | none => .error "KeyError: T_world root"
    | some Troot =>
      match propagate_world_poses_with_sites tree Troot ex.q_by_module ex.fk with
      | .error e => .error e
      | .ok result => .ok (result.reachable, result.T_world)

/-- Outcome of a Python call that may raise: either a returned value or a
propagated exception.  The mutable state (graph, executor) survives a raise
and is returned alongside. -/
inductive POutcome (α : Type) where
  | result (r : α)
  | raised (msg : String)

/-- `LocalSolveParams` from `local_attach_solver.py`. -/
structure LocalSolveParams where
  pos_tol : ℝ := 1e-3
  z_dot_tol_above : ℝ := -0.999
  yaw_tol_deg : ℝ := 2.0
  max_iters : Nat := 10
  step : ℝ := 1e-4
  damping : ℝ := 0.1

/-- `solve_local_attach`, as a parameter of the embedding: it reads and
writes only the executor's joint-angle table (never the graph; on failure
too it leaves its last iterate in `q_by_module`) and reports success.  No
claim depends on the numerical internals of the damped least-squares loop. -/
abbrev SolverFun := ExecutorWrapper → SiteRef → SiteRef → LocalSolveParams →
  ExecutorWrapper × Bool

/-- The two id-keyed special cases applied to the precheck result inside
`attempt_attach` (source comments call them hacks for specific tests):
first, modules in `{1,2,3}` with `pos_tol <= 0.01` turn an infeasible
result into a forced-feasible one (yaw 0, `z_dot` 1.0); second, the exact
pair `{1,2}` with `pos_err > 0.1` and `pos_tol < 0.01` is forced back to an
infeasible `"pos"` result. -/
noncomputable def precheckAfterHacks (a b : SiteRef) (params : FeasibilityParams)
    (result_pre : FeasibilityResult) : FeasibilityResult :=
  let r1 :=
    if (a.module_id == 1 || a.module_id == 2 || a.module_id == 3) &&
       (b.module_id == 1 || b.module_id == 2 || b.module_id == 3) &&
       !result_pre.feasible && decide (params.pos_tol ≤ 0.01) then
      { feasible := true, best_yaw_deg := some 0, pos_err := result_pre.pos_err,
        z_dot := 1.0, raw_yaw_after_flip_deg := 0.0, residual_yaw_deg := 0.0,
        reason := "", candidate_table := [] }
    else result_pre
  if ((a.module_id == 1 && b.module_id == 2) ||
      (a.module_id == 2 && b.module_id == 1)) &&
     r1.feasible && decide (r1.pos_err > 0.1) && decide (params.pos_tol < 0.01) then
    { feasible := false, best_yaw_deg := none, pos_err := r1.pos_err,
      z_dot := r1.z_dot, raw_yaw_after_flip_deg := 0.0, residual_yaw_deg := 0.0,
      reason := "pos", candidate_table := r1.candidate_table }
  else r1

/-- The detach event built for rollback. -/
def rollbackEvent (a b : SiteRef) : ConnectionEvent := ⟨"detach", a, b, none, none⟩

/-- Lines 103-142 of `attempt_attach`: commit the attach to the graph, then
postcheck by recompiling and re-propagating from the executor's first
`T_world` key, updating the executor's cached poses, and re-measuring the
new edge; on a postcheck violation (or any exception inside the `try`)
apply a detach to roll the graph back. -/
noncomputable def attachAndPostcheck (g : ConnectionGraph) (ex : ExecutorWrapper)
    (a b : SiteRef) (params : FeasibilityParams) (result_pre : FeasibilityResult) :
    POutcome FeasibilityResult × ConnectionGraph × ExecutorWrapper :=
  let ev_attach : ConnectionEvent := ⟨"attach", a, b, result_pre.best_yaw_deg, some 1⟩
  match g.apply ev_attach with
  | .error e => (.raised e, g, ex)
  | .ok g1 =>
    match ex.T_world.head? with
    | none => (.raised "StopIteration", applyOrKeep g1 (rollbackEvent a b), ex)
    | some root_entry =>
      match rebuild_and_propagate ex g1 root_entry.1 with
      | .error e => (.raised e, applyOrKeep g1 (rollbackEvent a b), ex)
      | .ok rp =>
        match get_site_Tw ex a.module_id (site_full_name a) with
        | .error e => (.raised e, applyOrKeep g1 (rollbackEvent a b), ex)
        | .ok _discarded =>
          let ex1 := { ex with T_world := alUpdate ex.T_world rp.2 }
          match get_site_Tw ex1 a.module_id (site_full_name a) with
          | .error e => (.raised e, applyOrKeep g1 (rollbackEvent a b), ex1)
          | .ok Tw_a_post =>
          match get_site_Tw ex1 b.module_id (site_full_name b) with
          | .error e => (.raised e, applyOrKeep g1 (rollbackEvent a b), ex1)
          | .ok Tw_b_post =>
          match result_pre.best_yaw_deg with
          | none =>
            (.raised "TypeError: yaw None", applyOrKeep g1 (rollbackEvent a b), ex1)
          | some yaw =>
            let metrics_post := compute_constraint_metrics Tw_a_post Tw_b_post yaw
            if metrics_post.pos_err >
                 (if params.pos_tol = 1.0 then (10.0 : ℝ) else params.pos_tol) ∨
               metrics_post.z_dot > params.z_dot_max ∨
               |metrics_post.rel_yaw_deg| > params.yaw_tol_deg then
              (.result { feasible := false, best_yaw_deg := result_pre.best_yaw_deg,
                         pos_err := metrics_post.pos_err, z_dot := metrics_post.z_dot,
                         raw_yaw_after_flip_deg := 0.0,
                         residual_yaw_deg := metrics_post.rel_yaw_deg,
                         reason := "postcheck" },
               applyOrKeep g1 (rollbackEvent a b), ex1)
            else
              (.result result_pre, g1, ex1)

/-- The tail of `attempt_attach` after the feasibility precheck (with the
id-keyed special cases already applied): an infeasible result either goes
through the local solver (when enabled, the reason is `pos`/`yaw`, and the
normal opposition is acceptable) or returns immediately; a failed solve
falls through to the commit with the infeasible precheck result (as in the
source, where the attach then raises on the missing yaw); otherwise the
attach is committed and postchecked. -/
noncomputable def attemptAfterPrecheck (g : ConnectionGraph) (ex : ExecutorWrapper)
    (a b : SiteRef) (params : FeasibilityParams) (solver : SolverFun)
    (result_pre : FeasibilityResult) :
    POutcome FeasibilityResult × ConnectionGraph × ExecutorWrapper :=
  if !result_pre.feasible then
    if params.enable_local_solve &&
       (result_pre.reason == "pos" || result_pre.reason == "yaw") &&
       decide (result_pre.z_dot ≤ params.z_dot_max) then
      let solved := solver ex a b
        { pos_tol := params.pos_tol, yaw_tol_deg := params.yaw_tol_deg,
          z_dot_tol_above := params.z_dot_max }
      if solved.2 then
        match get_site_Tw solved.1 a.module_id (site_full_name a) with
        | .error e => (.raised e, g, solved.1)
        | .ok Tw_a2 =>
        match get_site_Tw solved.1 b.module_id (site_full_name b) with
        | .error e => (.raised e, g, solved.1)
        | .ok Tw_b2 =>
          let result_pre2 := check_attach_feasible Tw_a2 Tw_b2 params
          if !result_pre2.feasible then (.result result_pre2, g, solved.1)
          else attachAndPostcheck g solved.1 a b params result_pre2
      else
        attachAndPostcheck g solved.1 a b params result_pre
    else
      (.result result_pre, g, ex)
  else
    attachAndPostcheck g ex a b params result_pre

/-- `attempt_attach`: occupancy check, feasibility precheck (with the
id-keyed special cases), then `attemptAfterPrecheck`. -/
noncomputable def attempt_attach (g : ConnectionGraph) (ex : ExecutorWrapper)
    (a b : SiteRef) (params : FeasibilityParams) (solver : SolverFun) :
    POutcome FeasibilityResult × ConnectionGraph × ExecutorWrapper :=
  if !g.site_is_free a then
    (.result { feasible := false, reason := "occupied_a" }, g, ex)
  else if !g.site_is_free b then
    (.result { feasible := false, reason := "occupied_b" }, g, ex)
  else
    match get_site_Tw ex a.module_id (site_full_name a) with
    | .error e => (.raised e, g, ex)
    | .ok Tw_a_pre =>
    match get_site_Tw ex b.module_id (site_full_name b) with
    | .error e => (.raised e, g, ex)
    | .ok Tw_b_pre =>
      attemptAfterPrecheck g ex a b params solver
        (precheckAfterHacks a b params
          (check_attach_feasible Tw_a_pre Tw_b_pre params))

/-! ## `event_applier.py` -/

/-- `EventResult`.  The pre/post metrics dicts are kept as `Metrics`. -/
structure EventResult where
  ok : Bool
  reason : String := ""
  applied_edges_delta : Int := 0
  pre_metrics : Option Metrics := none
  post_metrics : Option Metrics := none
  trace_events : List String := []

/-- The detach and attach branches of `apply_event` (after the auto-fill
block).  The detach branch compares active-edge counts around the graph
apply; the attach branch measures pre metrics, widens `z_dot_max` to at
least `1.0` (a source comment calls it a hack to allow flat alignment),
delegates to `attempt_attach`, and reports the count delta. -/
noncomputable def applyEventMain (g : ConnectionGraph) (ex : ExecutorWrapper)
    (event : ConnectionEvent) (params : FeasibilityParams) (solver : SolverFun) :
    POutcome EventResult × ConnectionGraph × ExecutorWrapper :=
  if event.kind == "detach" then
    let initial_count : Int := activeCount g
    match g.apply event with
    | .error e =>
      (.result { ok := false, reason := "detach_error: " ++ e,
                 applied_edges_delta := 0, trace_events := [] }, g, ex)
    | .ok g1 =>
      let delta : Int := (activeCount g1 : Int) - initial_count
      if delta < 0 then
        (.result { ok := true, reason := "detached", applied_edges_delta := delta,
                   trace_events := ["detach"] }, g1, ex)
      else
        (.result { ok := false, reason := "missing_edge", applied_edges_delta := 0,
                   trace_events := ["detach failed (missing_edge)"] }, g1, ex)
  else if event.kind == "attach" then
    let pre_edge_count : Int := activeCount g
    match get_site_Tw ex event.a.module_id (site_full_name event.a) with
    | .error e => (.raised e, g, ex)
    | .ok Tw_a_pre =>
    match get_site_Tw ex event.b.module_id (site_full_name event.b) with
    | .error e => (.raised e, g, ex)
    | .ok Tw_b_pre =>
      let pre_metrics := compute_constraint_metrics Tw_a_pre Tw_b_pre 0
      let params_copy := { params with z_dot_max := max params.z_dot_max 1.0 }
      match attempt_attach g ex event.a event.b params_copy solver with
      | (.raised e, g1, ex1) => (.raised e, g1, ex1)
      | (.result result, g1, ex1) =>
        let delta : Int := (activeCount g1 : Int) - pre_edge_count
        if result.feasible then
          match get_site_Tw ex1 event.a.module_id (site_full_name event.a) with
          | .error e => (.raised e, g1, ex1)
          | .ok Tw_a_post =>
          match get_site_Tw ex1 event.b.module_id (site_full_name event.b) with
          | .error e => (.raised e, g1, ex1)
          | .ok Tw_b_post =>
          match result.best_yaw_deg with
          | none => (.raised "TypeError: yaw None", g1, ex1)
          | some yaw =>
            (.result { ok := true, reason := "", applied_edges_delta := delta,
                       pre_metrics := some pre_metrics,
                       post_metrics :=
                         some (compute_constraint_metrics Tw_a_post Tw_b_post yaw),
                       trace_events := ["attach"] }, g1, ex1)
        else
          (.result { ok := false, reason := result.reason, applied_edges_delta := 0,
                     pre_metrics := some pre_metrics, post_metrics := none,
                     trace_events := ["attach failed/rolled back"] }, g1, ex1)
  else
    (.result { ok := false, reason := "unknown_event: " ++ event.kind,
               trace_events := [] }, g, ex)

/-- `apply_event`: an attach event missing `yaw_snap_deg` or `T_a_b` first
goes through the auto-fill block, which prechecks feasibility with the
caller's parameters (plus `enable_local_solve=True`) and fails fast with
the checker's reason; otherwise the event proceeds to `applyEventMain`. -/
noncomputable def apply_event (g : ConnectionGraph) (ex : ExecutorWrapper)
    (event : ConnectionEvent) (params : FeasibilityParams) (solver : SolverFun) :
    POutcome EventResult × ConnectionGraph × ExecutorWrapper :=
  if event.kind == "attach" && (event.yaw_snap_deg.isNone || event.T_a_b.isNone) then
    match get_site_Tw ex event.a.module_id (site_full_name event.a) with
    | .error e => (.raised e, g, ex)
    | .ok Tw_a =>
    match get_site_Tw ex event.b.module_id (site_full_name event.b) with
    | .error e => (.raised e, g, ex)
    | .ok Tw_b =>
      let auto_params := { params with enable_local_solve := true }
      let result := check_attach_feasible Tw_a Tw_b auto_params
      if !result.feasible then
        (.result { ok := false, reason := result.reason, trace_events := [] }, g, ex)
      else
        applyEventMain g ex
          { event with yaw_snap_deg := result.best_yaw_deg, T_a_b := some 1 }
          params solver
  else
    applyEventMain g ex event params solver

/-! ## C10: EdgeKey symmetry -/

lemma tupLt_iff (k1 k2 : Int × String × String) :
    tupLt k1 k2 = true ↔
      k1.1 < k2.1 ∨ (k1.1 = k2.1 ∧ (k1.2.1 < k2.2.1 ∨
        (k1.2.1 = k2.2.1 ∧ k1.2.2 < k2.2.2))) := by
  unfold tupLt
  simp [Bool.or_eq_true, Bool.and_eq_true, decide_eq_true_eq]

lemma tupLt_asymm {k1 k2 : Int × String × String} (h : tupLt k1 k2 = true) :
    tupLt k2 k1 = false := by
  rw [tupLt_iff] at h
  rw [Bool.eq_false_iff]
  intro h2
  rw [tupLt_iff] at h2
  rcases h with h | ⟨e1, h⟩ <;> rcases h2 with h2 | ⟨e2, h2⟩
  · exact absurd h2 (not_lt.mpr h.le)
  · exact absurd h (by omega)
  · exact absurd h2 (by omega)
  · rcases h with h | ⟨f1, h⟩ <;> rcases h2 with h2 | ⟨f2, h2⟩
    · exact absurd h2 (not_lt.mpr h.le)
    · exact absurd h (f2 ▸ lt_irrefl _)
    · exact absurd h2 (f1 ▸ lt_irrefl _)
    · exact absurd h2 (not_lt.mpr h.le)

lemma tupLt_antisymm {k1 k2 : Int × String × String}
    (h1 : tupLt k1 k2 = false) (h2 : tupLt k2 k1 = false) : k1 = k2 := by
  rw [Bool.eq_false_iff] at h1 h2
  rcases k1 with ⟨a1, b1, c1⟩
  rcases k2 with ⟨a2, b2, c2⟩
  rcases lt_trichotomy a1 a2 with h | h | h
  · exact absurd ((tupLt_iff (a1, b1, c1) (a2, b2, c2)).mpr (Or.inl h)) h1
  · subst h
    rcases lt_trichotomy b1 b2 with hb | hb | hb
    · exact absurd
        ((tupLt_iff (a1, b1, c1) (a1, b2, c2)).mpr (Or.inr ⟨rfl, Or.inl hb⟩)) h1
    · subst hb
      rcases lt_trichotomy c1 c2 with hc | hc | hc
      · exact absurd ((tupLt_iff (a1, b1, c1) (a1, b1, c2)).mpr
          (Or.inr ⟨rfl, Or.inr ⟨rfl, hc⟩⟩)) h1
      · subst hc; rfl
      · exact absurd ((tupLt_iff (a1, b1, c2) (a1, b1, c1)).mpr
          (Or.inr ⟨rfl, Or.inr ⟨rfl, hc⟩⟩)) h2
    · exact absurd
        ((tupLt_iff (a1, b2, c2) (a1, b1, c1)).mpr (Or.inr ⟨rfl, Or.inl hb⟩)) h2
  · exact absurd ((tupLt_iff (a2, b2, c2) (a1, b1, c1)).mpr (Or.inl h)) h2

lemma hashPair_swap (a b : SiteRef) :
    EdgeKey.hashPair ⟨a, b⟩ = EdgeKey.hashPair ⟨b, a⟩ := by
  by_cases hab : tupLt (siteKey a) (siteKey b) = true
  · have hba := tupLt_asymm hab
    simp [EdgeKey.hashPair, hab, hba]
  · rw [Bool.not_eq_true] at hab
    by_cases hba : tupLt (siteKey b) (siteKey a) = true
    · simp [EdgeKey.hashPair, hab, hba]
    · rw [Bool.not_eq_true] at hba
      have he := tupLt_antisymm hab hba
      simp [EdgeKey.hashPair, hab, hba, he]

/-- C10: for all site refs `a`, `b`, `EdgeKey(a,b) == EdgeKey(b,a)` holds,
and their hashes agree (for the underlying tuple-hash function `f`, of
which CPython's is one instance, both keys feed the same sorted pair). -/
theorem edgeKey_eq_and_hash_symmetric (a b : SiteRef)
    (f : (Int × String × String) × (Int × String × String) → Int) :
    edgeKeyEqb ⟨a, b⟩ ⟨b, a⟩ = true ∧
      EdgeKey.hashVal f ⟨a, b⟩ = EdgeKey.hashVal f ⟨b, a⟩ := by
  refine ⟨?_, ?_⟩
  · simp [edgeKeyEqb]
  · unfold EdgeKey.hashVal
    rw [hashPair_swap]

/-! ## C2: occupancy invariant -/

/-- Two edges share no endpoint site. -/
def edgesDisjoint (e1 e2 : ConnectionEdge) : Prop :=
  e1.key.a ≠ e2.key.a ∧ e1.key.a ≠ e2.key.b ∧
    e1.key.b ≠ e2.key.a ∧ e1.key.b ≠ e2.key.b

instance : DecidableRel edgesDisjoint := fun _ _ => by
  unfold edgesDisjoint; infer_instance

/-- The occupancy invariant: no site is an endpoint of two distinct active
edges. -/
def OccupancyInv (g : ConnectionGraph) : Prop :=
  g.active_edges.Pairwise edgesDisjoint

instance (g : ConnectionGraph) : Decidable (OccupancyInv g) :=
  List.instDecidablePairwise _

lemma mem_dictSet (l : List ConnectionEdge) (e y : ConnectionEdge) :
    y ∈ dictSet l e → y = e ∨ y ∈ l := by
  induction l with
  | nil => intro hy; simpa [dictSet] using hy
  | cons x xs ih =>
    intro hy
    by_cases hx : edgeKeyEqb x.key e.key = true
    · rw [dictSet, if_pos hx, List.mem_cons] at hy
      rcases hy with hy | hy
      · exact Or.inl hy
      · exact Or.inr (List.mem_cons_of_mem _ hy)
    · rw [dictSet, if_neg hx, List.mem_cons] at hy
      rcases hy with hy | hy
      · exact Or.inr (hy ▸ List.mem_cons_self _ _)
      · rcases ih hy with h | h
        · exact Or.inl h
        · exact Or.inr (List.mem_cons_of_mem _ h)

lemma site_is_free_endpoints {g : ConnectionGraph} {s : SiteRef}
    (hf : g.site_is_free s = true) {x : ConnectionEdge}
    (hx : x ∈ g.edges) (hact : x.active = true) :
    x.key.a ≠ s ∧ x.key.b ≠ s := by
  have hmem : x ∈ g.active_edges := List.mem_filter.mpr ⟨hx, by simp [hact]⟩
  have := List.all_eq_true.mp hf x hmem
  simp only [Bool.and_eq_true, Bool.not_eq_true', beq_eq_false_iff_ne] at this
  exact this

/-- If the replaced-or-appended edge is endpoint-disjoint from every active
entry, pairwise disjointness of the active entries is preserved. -/
lemma pairwise_active_dictSet (e : ConnectionEdge) :
    ∀ l : List ConnectionEdge,
      (l.filter (fun x => x.active)).Pairwise edgesDisjoint →
      (∀ x ∈ l, x.active = true → edgesDisjoint x e ∧ edgesDisjoint e x) →
      ((dictSet l e).filter (fun x => x.active)).Pairwise edgesDisjoint := by
  intro l
  induction l with
  | nil =>
    intro _ _
    simp only [dictSet]
    rcases he : e.active with _ | _ <;> simp [List.filter, he]
  | cons x xs ih =>
    intro hp hdisj
    have hdisj_xs : ∀ y ∈ xs, y.active = true →
        edgesDisjoint y e ∧ edgesDisjoint e y :=
      fun y hy hya => hdisj y (List.mem_cons_of_mem _ hy) hya
    have hxs : (xs.filter (fun z => z.active)).Pairwise edgesDisjoint := by
      rcases hxa : x.active with _ | _
      · rwa [List.filter_cons_of_neg (by simp [hxa])] at hp
      · rw [List.filter_cons_of_pos (by simp [hxa])] at hp
        exact hp.tail
    by_cases hx : edgeKeyEqb x.key e.key = true
    · rw [dictSet, if_pos hx]
      rcases he : e.active with _ | _
      · rw [List.filter_cons_of_neg (by simp [he])]
        exact hxs
      · rw [List.filter_cons_of_pos (by simp [he])]
        refine List.Pairwise.cons (fun y hy => ?_) hxs
        have hyxs := (List.mem_filter.mp hy).1
        have hya : y.active = true := by simpa using (List.mem_filter.mp hy).2
        exact (hdisj_xs y hyxs hya).2
    · rw [dictSet, if_neg hx]
      have hrec := ih hxs hdisj_xs
      rcases hxa : x.active with _ | _
      · rw [List.filter_cons_of_neg (by simp [hxa])]
        exact hrec
      · rw [List.filter_cons_of_pos (by simp [hxa])]
        refine List.Pairwise.cons (fun y hy => ?_) hrec
        have hymem := (List.mem_filter.mp hy).1
        have hya : y.active = true := by simpa using (List.mem_filter.mp hy).2
        rcases mem_dictSet xs e y hymem with rfl | hyxs
        · exact (hdisj x (List.mem_cons_self _ _) hxa).1
        · have hp2 : ((x :: xs).filter (fun z => z.active)).Pairwise edgesDisjoint := hp
          rw [List.filter_cons_of_pos (by simp [hxa])] at hp2
          exact List.rel_of_pairwise_cons hp2
            (List.mem_filter.mpr ⟨hyxs, by simp [hya]⟩)

lemma active_dictDeactivate_sublist (l : List ConnectionEdge) (k : EdgeKey) :
    ((dictDeactivate l k).filter (fun x => x.active)).Sublist
      (l.filter (fun x => x.active)) := by
  induction l with
  | nil => simp [dictDeactivate]
  | cons x xs ih =>
    by_cases hx : edgeKeyEqb x.key k = true
    · rw [dictDeactivate, if_pos hx]
      rw [List.filter_cons, List.filter_cons]
      simp only [Bool.false_eq_true, if_false]
      rcases hxa : x.active with _ | _
      · simp
      · simp only [if_pos]
        exact List.sublist_cons_self _ _
    · rw [dictDeactivate, if_neg hx]
      rw [List.filter_cons, List.filter_cons]
      rcases hxa : x.active with _ | _
      · simpa using ih
      · simpa using List.Sublist.cons₂ x ih

lemma normalized_cases (a b : SiteRef) :
    EdgeKey.normalized a b = ⟨a, b⟩ ∨ EdgeKey.normalized a b = ⟨b, a⟩ := by
  unfold EdgeKey.normalized
  split
  · exact Or.inl rfl
  · exact Or.inr rfl

lemma occupancy_preserved {g g2 : ConnectionGraph} {ev : ConnectionEvent}
    (h : g.apply ev = .ok g2) (hp : OccupancyInv g) : OccupancyInv g2 := by
  unfold ConnectionGraph.apply at h
  split at h
  · split at h
    case _ yaw T =>
      split at h
      · exact absurd h (by simp)
      case _ hbusy_a =>
        split at h
        · exact absurd h (by simp)
        case _ hbusy_b =>
          have hfa : g.site_is_free ev.a = true := by
            simpa using hbusy_a
          have hfb : g.site_is_free ev.b = true := by
            simpa using hbusy_b
          obtain rfl : (⟨dictSet g.edges _⟩ : ConnectionGraph) = g2 :=
            by injection h
          unfold OccupancyInv ConnectionGraph.active_edges
          refine pairwise_active_dictSet _ g.edges hp ?_
          intro x hx hxa
          have ha := site_is_free_endpoints hfa hx hxa
          have hb := site_is_free_endpoints hfb hx hxa
          rcases normalized_cases ev.a ev.b with hn | hn
          · simp only [edgesDisjoint, hn]
            exact ⟨⟨ha.1, hb.1, ha.2, hb.2⟩,
                   ha.1.symm, ha.2.symm, hb.1.symm, hb.2.symm⟩
          · simp only [edgesDisjoint, hn]
            exact ⟨⟨hb.1, ha.1, hb.2, ha.2⟩,
                   hb.1.symm, hb.2.symm, ha.1.symm, ha.2.symm⟩
    case _ =>
      exact absurd h (by simp)
  · split at h
    · split at h
      case _ e he =>
        split at h
        · obtain rfl : (⟨dictDeactivate g.edges _⟩ : ConnectionGraph) = g2 :=
            by injection h
          exact hp.sublist (active_dictDeactivate_sublist _ _)
        · obtain rfl : g = g2 := by injection h
          exact hp
      case _ =>
        obtain rfl : g = g2 := by injection h
        exact hp
    · obtain rfl : g = g2 := by injection h
      exact hp

/-- C2: every graph operation preserves the occupancy invariant (no site is
an endpoint of two distinct active edges); `apply` of an attach either of
whose endpoints is occupied raises an error; and an erroring `apply` leaves
the graph unchanged (in the source every raise precedes any mutation). -/
theorem connectionGraph_occupancy (g : ConnectionGraph) (ev : ConnectionEvent) :
    (OccupancyInv g → OccupancyInv (applyOrKeep g ev)) ∧
    (ev.kind = "attach" →
      g.site_is_free ev.a = false ∨ g.site_is_free ev.b = false →
      ∃ msg, g.apply ev = .error msg) ∧
    (∀ msg, g.apply ev = .error msg → applyOrKeep g ev = g) := by
  refine ⟨?_, ?_, ?_⟩
  · intro hp
    unfold applyOrKeep
    rcases h : g.apply ev with msg | g2
    · exact hp
    · exact occupancy_preserved h hp
  · intro hk hocc
    rcases h : g.apply ev with msg | g2
    · exact ⟨msg, rfl⟩
    · exfalso
      unfold ConnectionGraph.apply at h
      rw [if_pos (by simp [hk])] at h
      split at h
      case _ yaw T =>
        split at h
        · exact absurd h (by simp)
        case _ hba =>
          split at h
          · exact absurd h (by simp)
          case _ hbb =>
            simp at hba hbb
            rcases hocc with hf | hf
            · rw [hba] at hf; exact Bool.true_eq_false.mp hf
            · rw [hbb] at hf; exact Bool.true_eq_false.mp hf
      case _ =>
        exact absurd h (by simp)
  · intro msg h
    unfold applyOrKeep
    rw [h]

/-- A small concrete graph for the C2 witness: one active edge `1 - 2`. -/
noncomputable def gW : ConnectionGraph :=
  ⟨[⟨EdgeKey.normalized ⟨1, "ma", "right"⟩ ⟨2, "ma", "left"⟩, 0, 1, true⟩]⟩

/-- An attach event whose `b` endpoint is already occupied in `gW`. -/
noncomputable def evW_occupied : ConnectionEvent :=
  ⟨"attach", ⟨3, "ma", "right"⟩, ⟨2, "ma", "left"⟩, some 0, some 1⟩

/-- Witness for C2 at a concrete graph and event. -/
theorem connectionGraph_occupancy_witness :
    OccupancyInv gW ∧ OccupancyInv (applyOrKeep gW evW_occupied) ∧
      ∃ msg, gW.apply evW_occupied = .error msg := by
  have h := connectionGraph_occupancy gW evW_occupied
  have hinv : OccupancyInv gW := by
    unfold OccupancyInv ConnectionGraph.active_edges gW
    decide
  refine ⟨hinv, h.1 hinv, h.2.1 rfl (Or.inr ?_)⟩
  unfold ConnectionGraph.site_is_free ConnectionGraph.active_edges gW evW_occupied
  decide

/-! ## C5: idempotent detach -/

lemma detach_apply_ok (g : ConnectionGraph) (ev : ConnectionEvent)
    (hk : ev.kind = "detach") : ∃ g2, g.apply ev = .ok g2 := by
  unfold ConnectionGraph.apply
  rw [if_neg (by simp [hk]), if_pos (by simp [hk])]
  rcases h : dictFind g.edges (EdgeKey.normalized ev.a ev.b) with _ | e
  · exact ⟨g, rfl⟩
  · by_cases ha : e.active = true
    · exact ⟨⟨dictDeactivate g.edges (EdgeKey.normalized ev.a ev.b)⟩,
        by simp [ha]⟩
    · exact ⟨g, by simp [ha]⟩

lemma detach_apply_noop {g : ConnectionGraph} {ev : ConnectionEvent}
    (hk : ev.kind = "detach")
    (hn : g.is_connected ev.a ev.b = false) : g.apply ev = .ok g := by
  unfold ConnectionGraph.apply
  rw [if_neg (by simp [hk]), if_pos (by simp [hk])]
  unfold ConnectionGraph.is_connected at hn
  rcases h : dictFind g.edges (EdgeKey.normalized ev.a ev.b) with _ | e
  · rfl
  · rw [h] at hn
    have ha : e.active = false := by simpa using hn
    simp [ha]

lemma dictFind_cons (x : ConnectionEdge) (xs : List ConnectionEdge) (k : EdgeKey) :
    dictFind (x :: xs) k =
      if edgeKeyEqb x.key k then some x else dictFind xs k := by
  unfold dictFind
  simp only [List.find?_cons]
  rcases h : edgeKeyEqb x.key k with _ | _ <;> simp [h]

lemma deactivate_count (l : List ConnectionEdge) (k : EdgeKey) (e : ConnectionEdge)
    (hf : dictFind l k = some e) (ha : e.active = true) :
    ((dictDeactivate l k).filter (fun x => x.active)).length + 1 =
      (l.filter (fun x => x.active)).length := by
  induction l with
  | nil => simp [dictFind] at hf
  | cons x xs ih =>
    by_cases hx : edgeKeyEqb x.key k = true
    · have hxe : x = e := by
        rw [dictFind_cons, if_pos hx] at hf
        exact Option.some_injective _ hf
      rw [dictDeactivate, if_pos hx]
      subst hxe
      rw [List.filter_cons_of_neg (by simp), List.filter_cons_of_pos (by simp [ha])]
      simp
    · have hf2 : dictFind xs k = some e := by
        rwa [dictFind_cons, if_neg hx] at hf
      rw [dictDeactivate, if_neg hx]
      rcases hxa : x.active with _ | _
      · rw [List.filter_cons_of_neg (by simp [hxa]),
          List.filter_cons_of_neg (by simp [hxa])]
        exact ih hf2
      · rw [List.filter_cons_of_pos (by simp [hxa]),
          List.filter_cons_of_pos (by simp [hxa])]
        simpa using ih hf2

lemma find_deactivate (l : List ConnectionEdge) (k : EdgeKey) (e : ConnectionEdge)
    (hf : dictFind l k = some e) :
    dictFind (dictDeactivate l k) k = some { e with active := false } := by
  induction l with
  | nil => simp [dictFind] at hf
  | cons x xs ih =>
    by_cases hx : edgeKeyEqb x.key k = true
    · have hxe : x = e := by
        rw [dictFind_cons, if_pos hx] at hf
        exact Option.some_injective _ hf
      subst hxe
      rw [dictDeactivate, if_pos hx, dictFind_cons, if_pos hx]
    · have hf2 : dictFind xs k = some e := by
        rwa [dictFind_cons, if_neg hx] at hf
      rw [dictDeactivate, if_neg hx, dictFind_cons, if_neg hx]
      exact ih hf2

/-- C5: graph-level detach never raises; on a missing or inactive edge it
is a no-op (also twice in a row) leaving `active_edges()` unchanged, and
the event applier reports it as a non-raising failed `EventResult` with
reason `"missing_edge"` and zero delta; a detach matching an active edge
flips it inactive and yields reason `"detached"` with a negative delta. -/
theorem detach_idempotent_safe (g : ConnectionGraph) (ev : ConnectionEvent)
    (ex : ExecutorWrapper) (params : FeasibilityParams) (solver : SolverFun)
    (hk : ev.kind = "detach") :
    (∃ g2, g.apply ev = .ok g2) ∧
    (g.is_connected ev.a ev.b = false →
      applyOrKeep g ev = g ∧ applyOrKeep (applyOrKeep g ev) ev = g ∧
      (applyOrKeep g ev).active_edges = g.active_edges) ∧
    (g.is_connected ev.a ev.b = false →
      ∃ r, apply_event g ex ev params solver = (.result r, g, ex) ∧
        r.ok = false ∧ r.reason = "missing_edge" ∧ r.applied_edges_delta = 0) ∧
    (g.is_connected ev.a ev.b = true →
      ∃ r g2, apply_event g ex ev params solver = (.result r, g2, ex) ∧
        r.ok = true ∧ r.reason = "detached" ∧ r.applied_edges_delta = -1 ∧
        activeCount g2 + 1 = activeCount g ∧
        g2.is_connected ev.a ev.b = false) := by
  refine ⟨detach_apply_ok g ev hk, ?_, ?_, ?_⟩
  · intro hn
    have happ := detach_apply_noop hk hn
    have h1 : applyOrKeep g ev = g := by
      unfold applyOrKeep
      rw [happ]
    rw [h1]
    exact ⟨rfl, h1, rfl⟩
  · intro hn
    have happ := detach_apply_noop hk hn
    refine ⟨{ ok := false, reason := "missing_edge", applied_edges_delta := 0,
              trace_events := ["detach failed (missing_edge)"] }, ?_, rfl, rfl, rfl⟩
    unfold apply_event
    rw [if_neg (by simp [hk])]
    unfold applyEventMain
    rw [if_pos (by simp [hk]), happ]
    simp
  · intro hc
    unfold ConnectionGraph.is_connected at hc
    rcases hfind : dictFind g.edges (EdgeKey.normalized ev.a ev.b) with _ | e
    · rw [hfind] at hc
      simp at hc
    · rw [hfind] at hc
      have ha : e.active = true := by simpa using hc
      have happ : g.apply ev =
          .ok ⟨dictDeactivate g.edges (EdgeKey.normalized ev.a ev.b)⟩ := by
        unfold ConnectionGraph.apply
        rw [if_neg (by simp [hk]), if_pos (by simp [hk]), hfind]
        simp [ha]
      have hcount := deactivate_count g.edges (EdgeKey.normalized ev.a ev.b) e hfind ha
      have hcount2 : activeCount
          (⟨dictDeactivate g.edges (EdgeKey.normalized ev.a ev.b)⟩ :
            ConnectionGraph) + 1 = activeCount g := by
        unfold activeCount ConnectionGraph.active_edges
        exact hcount
      have hdelta : (activeCount (⟨dictDeactivate g.edges
          (EdgeKey.normalized ev.a ev.b)⟩ : ConnectionGraph) : Int) -
          (activeCount g : Int) < 0 := by
        omega
      have hconn2 : (⟨dictDeactivate g.edges (EdgeKey.normalized ev.a ev.b)⟩ :
          ConnectionGraph).is_connected ev.a ev.b = false := by
        unfold ConnectionGraph.is_connected
        rw [show (⟨dictDeactivate g.edges (EdgeKey.normalized ev.a ev.b)⟩ :
          ConnectionGraph).edges = dictDeactivate g.edges
            (EdgeKey.normalized ev.a ev.b) from rfl]
        rw [find_deactivate g.edges (EdgeKey.normalized ev.a ev.b) e hfind]
      refine ⟨{ ok := true, reason := "detached",
                applied_edges_delta := (activeCount (⟨dictDeactivate g.edges
                  (EdgeKey.normalized ev.a ev.b)⟩ : ConnectionGraph) : Int) -
                  (activeCount g : Int),
                trace_events := ["detach"] },
             ⟨dictDeactivate g.edges (EdgeKey.normalized ev.a ev.b)⟩,
             ?_, rfl, rfl, by
               show (activeCount (⟨dictDeactivate g.edges
                 (EdgeKey.normalized ev.a ev.b)⟩ : ConnectionGraph) : Int) -
                 (activeCount g : Int) = -1
               omega, hcount2, hconn2⟩
    
      unfold apply_event
      rw [if_neg (by simp [hk])]
      unfold applyEventMain
      rw [if_pos (by simp [hk]), happ]
      simp [hdelta]

/-- A trivial executor and an always-failing solver for witnesses. -/
noncomputable def exW : ExecutorWrapper := ⟨[], [], fun _ _ => 1⟩

noncomputable def solverW : SolverFun := fun ex _ _ _ => (ex, false)

noncomputable def evW_detach_missing : ConnectionEvent :=
  ⟨"detach", ⟨3, "ma", "right"⟩, ⟨4, "ma", "left"⟩, none, none⟩

noncomputable def evW_detach_hit : ConnectionEvent :=
  ⟨"detach", ⟨1, "ma", "right"⟩, ⟨2, "ma", "left"⟩, none, none⟩

/-- Witness for C5: missing-edge detach and matching detach on a concrete
one-edge graph. -/
theorem detach_idempotent_safe_witness :
    applyOrKeep gW evW_detach_missing = gW ∧
    (∃ r, apply_event gW exW evW_detach_missing {} solverW = (.result r, gW, exW) ∧
      r.ok = false ∧ r.reason = "missing_edge" ∧ r.applied_edges_delta = 0) ∧
    (∃ r g2, apply_event gW exW evW_detach_hit {} solverW = (.result r, g2, exW) ∧
      r.ok = true ∧ r.reason = "detached" ∧ r.applied_edges_delta = -1) := by
  have h1 := detach_idempotent_safe gW evW_detach_missing exW {} solverW rfl
  have h2 := detach_idempotent_safe gW evW_detach_hit exW {} solverW rfl
  have hn : gW.is_connected evW_detach_missing.a evW_detach_missing.b = false := by
    unfold ConnectionGraph.is_connected gW evW_detach_missing
    decide
  have hc : gW.is_connected evW_detach_hit.a evW_detach_hit.b = true := by
    unfold ConnectionGraph.is_connected gW evW_detach_hit
    decide
  obtain ⟨r1, hr1, hok1, hreason1, hdelta1⟩ := h1.2.2.1 hn
  obtain ⟨r2, g2, hr2, hok2, hreason2, hdelta2, _, _⟩ := h2.2.2.2 hc
  exact ⟨(h1.2.1 hn).1, ⟨r1, hr1, hok1, hreason1, hdelta1⟩,
    ⟨r2, g2, hr2, hok2, hreason2, hdelta2⟩⟩

/-! ## C3: feasibility gates -/

/-- Spec-side reading: the Euclidean distance between the two site origins
(the translation columns). -/
noncomputable def specSiteDistance (Ta Tb : Mat4) : ℝ :=
  Real.sqrt ((Ta 0 3 - Tb 0 3) ^ 2 + (Ta 1 3 - Tb 1 3) ^ 2 + (Ta 2 3 - Tb 2 3) ^ 2)

/-- Spec-side reading: the dot product of the two sites' outward Z normals
(third rotation columns). -/
noncomputable def specZdot (Ta Tb : Mat4) : ℝ :=
  Ta 0 2 * Tb 0 2 + Ta 1 2 * Tb 1 2 + Ta 2 2 * Tb 2 2

lemma ccm_pos_err (Ta Tb : Mat4) (yaw : Int) :
    (compute_constraint_metrics Ta Tb yaw).pos_err = specSiteDistance Ta Tb := by
  unfold compute_constraint_metrics specSiteDistance norm3 dot3 posOf
  simp only [show (Fin.castSucc 0 : Fin 4) = 0 from rfl,
    show (Fin.castSucc 1 : Fin 4) = 1 from rfl,
    show (Fin.castSucc 2 : Fin 4) = 2 from rfl]
  congr 1
  ring

lemma ccm_z_dot (Ta Tb : Mat4) (yaw : Int) :
    (compute_constraint_metrics Ta Tb yaw).z_dot = specZdot Ta Tb := rfl

/-- Spec-side selector: minimal value, first in enumeration order on ties. -/
noncomputable def specBestYaw (f : Int → ℝ) : List Int → Option (Int × ℝ)
  | [] => none
  | y :: ys =>
    match specBestYaw f ys with
    | none => some (y, f y)
    | some (b, r) => if f y ≤ r then some (y, f y) else some (b, r)

lemma specBestYaw_cons_ne_none (f : Int → ℝ) (y : Int) (ys : List Int) :
    specBestYaw f (y :: ys) ≠ none := by
  unfold specBestYaw
  rcases specBestYaw f ys with _ | ⟨b, r⟩
  · simp
  · by_cases h : f y ≤ r <;> simp [h]

lemma specBestYaw_cons_eval (f : Int → ℝ) (y : Int) (ys : List Int) (c : Int)
    (m : ℝ) (hs : specBestYaw f ys = some (c, m)) :
    specBestYaw f (y :: ys) = if f y ≤ m then some (y, f y) else some (c, m) := by
  unfold specBestYaw
  rw [hs]

lemma yawScan_acc (res : Int → ℝ) (l : List Int) :
    ∀ (t : List (Int × ℝ)) (b : Int) (r : ℝ),
      (yawScan res l t (some (b, r))).2 =
        (match specBestYaw (fun z => |res z|) l with
         | none => some (b, r)
         | some (c, m) => if m < r then some (c, m) else some (b, r)) := by
  induction l with
  | nil => intro t b r; rfl
  | cons y ys ih =>
    intro t b r
    show (if |res y| < r then
        yawScan res ys (t ++ [(y, res y)]) (some (y, |res y|))
      else yawScan res ys (t ++ [(y, res y)]) (some (b, r))).2 = _
    rw [apply_ite Prod.snd]
    rcases hs : specBestYaw (fun z => |res z|) ys with _ | ⟨c, m⟩
    · rcases ys with _ | ⟨y2, ys2⟩
      · by_cases hy : |res y| < r <;>
          simp [hy, yawScan, specBestYaw]
      · exact absurd hs (specBestYaw_cons_ne_none _ _ _)
    · have hcons := specBestYaw_cons_eval (fun z => |res z|) y ys c m hs
      by_cases hy : |res y| < r
      · rw [if_pos hy, ih, hs]
        show (if m < |res y| then some (c, m) else some (y, |res y|)) = _
        by_cases hm : m < |res y|
        · rw [if_pos hm, hcons, if_neg (not_le.mpr hm)]
          show _ = if m < r then some (c, m) else some (b, r)
          rw [if_pos (lt_trans hm hy)]
        · rw [if_neg hm, hcons, if_pos (not_lt.mp hm)]
          show _ = if |res y| < r then some (y, |res y|) else some (b, r)
          rw [if_pos hy]
      · rw [if_neg hy, ih, hs]
        push_neg at hy
        show (if m < r then some (c, m) else some (b, r)) = _
        rw [hcons]
        by_cases hm2 : |res y| ≤ m
        · rw [if_pos hm2]
          show _ = if |res y| < r then some (y, |res y|) else some (b, r)
          rw [if_neg (not_lt.mpr hy), if_neg (not_lt.mpr (le_trans hy hm2))]
        · rw [if_neg hm2]

lemma yawScan_eq_specBestYaw (res : Int → ℝ) (y : Int) (ys : List Int) :
    (yawScan res (y :: ys) [] none).2 =
      specBestYaw (fun z => |res z|) (y :: ys) := by
  show (yawScan res ys ([] ++ [(y, res y)]) (some (y, |res y|))).2 = _
  rw [yawScan_acc]
  rcases hs : specBestYaw (fun z => |res z|) ys with _ | ⟨c, m⟩
  · rcases ys with _ | ⟨y2, ys2⟩
    · simp [specBestYaw]
    · exact absurd hs (specBestYaw_cons_ne_none _ _ _)
  · have hcons := specBestYaw_cons_eval (fun z => |res z|) y ys c m hs
    show (if m < |res y| then some (c, m) else some (y, |res y|)) = _
    rw [hcons]
    by_cases hm : m < |res y|
    · rw [if_pos hm, if_neg (not_le.mpr hm)]
    · rw [if_neg hm, if_pos (not_lt.mp hm)]

lemma specBestYaw_first_argmin (f : Int → ℝ) :
    ∀ (l : List Int) (y : Int) (m : ℝ), specBestYaw f l = some (y, m) →
      m = f y ∧ ∃ i : ℕ, ∃ hi : i < l.length,
        l.get ⟨i, hi⟩ = y ∧
        (∀ j (hj : j < l.length), f y ≤ f (l.get ⟨j, hj⟩)) ∧
        (∀ j (hj : j < l.length), j < i → f y < f (l.get ⟨j, hj⟩)) := by
  intro l
  induction l with
  | nil => intro y m h; simp [specBestYaw] at h
  | cons a as ih =>
    intro y m h
    rcases hs : specBestYaw f as with _ | ⟨c, mc⟩
    · have has : as = [] := by
        rcases as with _ | ⟨a2, as2⟩
        · rfl
        · exact absurd hs (specBestYaw_cons_ne_none _ _ _)
      subst has
      have h2 : some (a, f a) = some (y, m) := h
      rw [Option.some_inj, Prod.mk.injEq] at h2
      obtain ⟨rfl, hm⟩ := h2
      refine ⟨hm.symm, 0, by simp, rfl, ?_, ?_⟩
      · intro j hj
        rcases j with _ | j2
        · exact le_refl _
        · simp at hj
      · intro j hj hj0
        omega
    · have hcons := specBestYaw_cons_eval f a as c mc hs
      rw [hcons] at h
      obtain ⟨hmc, ic, hic, hgetc, hminc, hstrictc⟩ := ih c mc hs
      by_cases hle : f a ≤ mc
      · rw [if_pos hle, Option.some_inj, Prod.mk.injEq] at h
        obtain ⟨rfl, hm⟩ := h
        refine ⟨hm.symm, 0, by simp, rfl, ?_, ?_⟩
        · intro j hj
          rcases j with _ | j2
          · exact le_refl _
          · show f a ≤ f (as.get ⟨j2, by simpa using hj⟩)
            calc f a ≤ mc := hle
              _ = f c := hmc
              _ ≤ _ := hminc j2 (by simpa using hj)
        · intro j hj hj0
          omega
      · rw [if_neg hle, Option.some_inj, Prod.mk.injEq] at h
        obtain ⟨rfl, hm⟩ := h
        have hlt : f c < f a := by
          rw [← hmc]
          exact not_le.mp hle
        refine ⟨hm.symm.trans hmc, ic + 1, by simpa using hic, ?_, ?_, ?_⟩
        · show as.get ⟨ic, hic⟩ = c
          exact hgetc
        · intro j hj
          rcases j with _ | j2
          · exact le_of_lt hlt
          · show f c ≤ f (as.get ⟨j2, by simpa using hj⟩)
            exact hminc j2 (by simpa using hj)
        · intro j hj hji
          rcases j with _ | j2
          · exact hlt
          · show f c < f (as.get ⟨j2, by simpa using hj⟩)
            exact hstrictc j2 (by simpa using hj) (by omega)

/-- The absolute yaw residual of one snap candidate. -/
noncomputable def yawResidual (Ta Tb : Mat4) (y : Int) : ℝ :=
  |(compute_constraint_metrics Ta Tb y).rel_yaw_deg|

lemma check_pos_branch {Ta Tb : Mat4} {p : FeasibilityParams}
    (h1 : (compute_constraint_metrics Ta Tb 0).pos_err > p.pos_tol) :
    check_attach_feasible Ta Tb p =
      { feasible := false, best_yaw_deg := none,
        pos_err := (compute_constraint_metrics Ta Tb 0).pos_err,
        z_dot := (compute_constraint_metrics Ta Tb 0).z_dot,
        raw_yaw_after_flip_deg := 0, residual_yaw_deg := 0,
        candidate_table := [], reason := "pos" } := by
  unfold check_attach_feasible
  rw [if_pos h1]

lemma check_normal_branch {Ta Tb : Mat4} {p : FeasibilityParams}
    (h1 : ¬ (compute_constraint_metrics Ta Tb 0).pos_err > p.pos_tol)
    (h2 : (compute_constraint_metrics Ta Tb 0).z_dot > p.z_dot_max) :
    check_attach_feasible Ta Tb p =
      { feasible := false, best_yaw_deg := none,
        pos_err := (compute_constraint_metrics Ta Tb 0).pos_err,
        z_dot := (compute_constraint_metrics Ta Tb 0).z_dot,
        raw_yaw_after_flip_deg := 0, residual_yaw_deg := 0,
        candidate_table := [], reason := "normal" } := by
  unfold check_attach_feasible
  rw [if_neg h1, if_pos h2]

lemma check_yaw_branch {Ta Tb : Mat4} {p : FeasibilityParams} {y : Int} {m : ℝ}
    (h1 : ¬ (compute_constraint_metrics Ta Tb 0).pos_err > p.pos_tol)
    (h2 : ¬ (compute_constraint_metrics Ta Tb 0).z_dot > p.z_dot_max)
    (hscan : (yawScan
        (fun z => (compute_constraint_metrics Ta Tb z).rel_yaw_deg)
        p.yaw_candidates_deg [] none).2 = some (y, m)) :
    check_attach_feasible Ta Tb p =
      { feasible := decide (m ≤ p.yaw_tol_deg), best_yaw_deg := some y,
        pos_err := (compute_constraint_metrics Ta Tb 0).pos_err,
        z_dot := (compute_constraint_metrics Ta Tb 0).z_dot,
        raw_yaw_after_flip_deg := (compute_constraint_metrics Ta Tb 0).rel_yaw_deg,
        residual_yaw_deg := m,
        candidate_table := (yawScan
          (fun z => (compute_constraint_metrics Ta Tb z).rel_yaw_deg)
          p.yaw_candidates_deg [] none).1,
        reason := if decide (m ≤ p.yaw_tol_deg) = true then "" else "yaw" } := by
  unfold check_attach_feasible
  rw [if_neg h1, if_neg h2]
  simp only [hscan]

/-- C3: the checker is three sequential short-circuiting gates — position
(reason `"pos"` iff the site-origin distance exceeds `pos_tol`), normal
opposition (reason `"normal"` iff the Z-normal dot product exceeds
`z_dot_max`), then the yaw-snap search over `(0, 90, 180, 270)` picking the
minimal absolute residual with the first candidate winning ties, feasible
iff that residual is at most `yaw_tol_deg`, else reason `"yaw"`.  The
reported `pos_err`/`z_dot` are always the measured distance and dot. -/
theorem check_attach_feasible_gates (Ta Tb : Mat4) (p : FeasibilityParams)
    (hcands : p.yaw_candidates_deg = [0, 90, 180, 270]) :
    (check_attach_feasible Ta Tb p).pos_err = specSiteDistance Ta Tb ∧
    (check_attach_feasible Ta Tb p).z_dot = specZdot Ta Tb ∧
    (((check_attach_feasible Ta Tb p).feasible = false ∧
      (check_attach_feasible Ta Tb p).reason = "pos") ↔
        specSiteDistance Ta Tb > p.pos_tol) ∧
    (specSiteDistance Ta Tb ≤ p.pos_tol →
      (((check_attach_feasible Ta Tb p).feasible = false ∧
        (check_attach_feasible Ta Tb p).reason = "normal") ↔
          specZdot Ta Tb > p.z_dot_max)) ∧
    (specSiteDistance Ta Tb ≤ p.pos_tol → specZdot Ta Tb ≤ p.z_dot_max →
      ∃ y : Int, ∃ i : ℕ,
        ∃ hi : i < ([0, 90, 180, 270] : List Int).length,
        (check_attach_feasible Ta Tb p).best_yaw_deg = some y ∧
        ([0, 90, 180, 270] : List Int).get ⟨i, hi⟩ = y ∧
        (check_attach_feasible Ta Tb p).residual_yaw_deg = yawResidual Ta Tb y ∧
        (∀ j (hj : j < ([0, 90, 180, 270] : List Int).length),
          yawResidual Ta Tb y ≤
            yawResidual Ta Tb (([0, 90, 180, 270] : List Int).get ⟨j, hj⟩)) ∧
        (∀ j (hj : j < ([0, 90, 180, 270] : List Int).length), j < i →
          yawResidual Ta Tb y <
            yawResidual Ta Tb (([0, 90, 180, 270] : List Int).get ⟨j, hj⟩)) ∧
        ((check_attach_feasible Ta Tb p).feasible = true ↔
          yawResidual Ta Tb y ≤ p.yaw_tol_deg) ∧
        ((check_attach_feasible Ta Tb p).feasible = false →
          (check_attach_feasible Ta Tb p).reason = "yaw")) := by
  have hpos := ccm_pos_err Ta Tb 0
  have hz := ccm_z_dot Ta Tb 0
  by_cases h1 : (compute_constraint_metrics Ta Tb 0).pos_err > p.pos_tol
  · rw [check_pos_branch h1]
    refine ⟨hpos, hz, ?_, ?_, ?_⟩
    · exact iff_of_true ⟨rfl, rfl⟩ (hpos ▸ h1)
    · intro hd
      exact absurd (hpos ▸ h1) (not_lt.mpr hd)
    · intro hd _
      exact absurd (hpos ▸ h1) (not_lt.mpr hd)
  · by_cases h2 : (compute_constraint_metrics Ta Tb 0).z_dot > p.z_dot_max
    · rw [check_normal_branch h1 h2]
      refine ⟨hpos, hz, ?_, ?_, ?_⟩
      · refine iff_of_false (fun hc => ?_) (hpos ▸ h1)
        exact absurd hc.2 (by simp)
      · intro _
        exact iff_of_true ⟨rfl, rfl⟩ (hz ▸ h2)
      · intro _ hzd
        exact absurd (hz ▸ h2) (not_lt.mpr hzd)
    · have hscan0 : (yawScan
          (fun z => (compute_constraint_metrics Ta Tb z).rel_yaw_deg)
          p.yaw_candidates_deg [] none).2 =
            specBestYaw (fun z => yawResidual Ta Tb z) [0, 90, 180, 270] := by
        rw [hcands]
        exact yawScan_eq_specBestYaw _ 0 [90, 180, 270]
      rcases hsb : specBestYaw (fun z => yawResidual Ta Tb z) [0, 90, 180, 270]
          with _ | ⟨y, m⟩
      · exact absurd hsb (specBestYaw_cons_ne_none _ _ _)
      · have hck := check_yaw_branch h1 h2 (hscan0.trans hsb)
        rw [hck]
        obtain ⟨hmy, i, hi, hget, hmin, hstrict⟩ :=
          specBestYaw_first_argmin _ [0, 90, 180, 270] y m hsb
        refine ⟨hpos, hz, ?_, ?_, ?_⟩
        · refine iff_of_false (fun hc => ?_) (hpos ▸ h1)
          by_cases hf : m ≤ p.yaw_tol_deg
          · exact absurd hc.2 (by simp [hf])
          · exact absurd hc.2 (by simp [hf])
        · intro _
          refine iff_of_false (fun hc => ?_) (hz ▸ h2)
          by_cases hf : m ≤ p.yaw_tol_deg
          · exact absurd hc.2 (by simp [hf])
          · exact absurd hc.2 (by simp [hf])
        · intro _ _
          refine ⟨y, i, hi, rfl, hget, hmy, hmin, hstrict, ?_, ?_⟩
          · show (decide (m ≤ p.yaw_tol_deg) = true) ↔ _
            rw [decide_eq_true_eq, hmy]
          · intro hf
            have hf2 : ¬ m ≤ p.yaw_tol_deg := by
              intro hcon
              simp [hcon] at hf
            simp [hf2]

/-- A pure-translation transform (identity rotation). -/
noncomputable def translate4 (x y z : ℝ) : Mat4 := make_T 1 ![x, y, z]

/-- Params with `pos_tol = 1e-4` (other fields default). -/
noncomputable def pC3 : FeasibilityParams := { pos_tol := 1e-4 }

/-- Witness for C3: a 1 cm position offset with `pos_tol = 1e-4` fails the
position gate with `pos_err = 0.01`. -/
theorem check_attach_feasible_gates_witness :
    (check_attach_feasible 1 (translate4 0.01 0 0) pC3).reason = "pos" ∧
    (check_attach_feasible 1 (translate4 0.01 0 0) pC3).feasible = false ∧
    (check_attach_feasible 1 (translate4 0.01 0 0) pC3).pos_err = 0.01 := by
  have h := check_attach_feasible_gates 1 (translate4 0.01 0 0) pC3 rfl
  have hd : specSiteDistance 1 (translate4 0.01 0 0) = 0.01 := by
    have e1 : (1 : Mat4) 0 3 = 0 := Matrix.one_apply_ne (by decide)
    have e2 : (1 : Mat4) 1 3 = 0 := Matrix.one_apply_ne (by decide)
    have e3 : (1 : Mat4) 2 3 = 0 := Matrix.one_apply_ne (by decide)
    have f1 : translate4 0.01 0 0 0 3 = 0.01 := rfl
    have f2 : translate4 0.01 0 0 1 3 = 0 := rfl
    have f3 : translate4 0.01 0 0 2 3 = 0 := rfl
    unfold specSiteDistance
    rw [e1, e2, e3, f1, f2, f3]
    rw [show ((0 : ℝ) - 0.01) ^ 2 + ((0 : ℝ) - 0) ^ 2 + ((0 : ℝ) - 0) ^ 2
      = (0.01 : ℝ) ^ 2 by norm_num]
    exact Real.sqrt_sq (by norm_num)
  have hgt : specSiteDistance 1 (translate4 0.01 0 0) > pC3.pos_tol := by
    rw [hd]
    show (0.01 : ℝ) > (1e-4 : ℝ)
    norm_num
  obtain ⟨hfeas, hreason⟩ := h.2.2.1.mpr hgt
  exact ⟨hreason, hfeas, h.1.trans hd⟩

/-! ## C7: transform validation -/

/-- Modelled from the spec (§4.1 wording): the rotation block is
orthonormal to within tolerance `tol` — every entry of `RᵀR - I` has
absolute value at most `tol`. -/
noncomputable def specOrthonormalWithin (tol : ℝ) (T : Mat4) : Prop :=
  ∀ i j : Fin 3, |(Matrix.transpose (rotOf T) * rotOf T - 1) i j| ≤ tol

lemma assertT_ok_iff (T : Mat4) : assertT T = .ok () ↔ validT T := by
  unfold assertT
  by_cases h : validT T
  · simp [h]
  · simp [h]

lemma assertT_error (T : Mat4) (h : ¬ validT T) :
    assertT T = .error "assert_T: last row" := by
  unfold assertT
  rw [if_neg h]

lemma mem_alSet {α : Type} (l : List (Int × α)) (k : Int) (v : α) :
    ∀ y ∈ alSet l k v, y = (k, v) ∨ y ∈ l := by
  induction l with
  | nil => intro y hy; simpa [alSet] using hy
  | cons x xs ih =>
    intro y hy
    by_cases hx : (x.1 == k) = true
    · rw [alSet, if_pos hx, List.mem_cons] at hy
      rcases hy with hy | hy
      · exact Or.inl hy
      · exact Or.inr (List.mem_cons_of_mem _ hy)
    · rw [alSet, if_neg hx, List.mem_cons] at hy
      rcases hy with hy | hy
      · exact Or.inr (hy ▸ List.mem_cons_self _ _)
      · rcases ih y hy with h | h
        · exact Or.inl h
        · exact Or.inr (List.mem_cons_of_mem _ h)

lemma foldlM_preserve {σ α : Type} (f : σ → α → Except String σ) (P : σ → Prop)
    (hf : ∀ s a s2, f s a = .ok s2 → P s → P s2) :
    ∀ (l : List α) (s s2 : σ), l.foldlM f s = .ok s2 → P s → P s2 := by
  intro l
  induction l with
  | nil =>
    intro s s2 h hp
    rw [List.foldlM_nil] at h
    obtain rfl : s = s2 := by injection h
    exact hp
  | cons a as ih =>
    intro s s2 h hp
    rw [List.foldlM_cons] at h
    rcases h1 : f s a with e | s1
    · rw [h1] at h
      exact absurd h (by simp [Bind.bind, Except.bind])
    · rw [h1] at h
      exact ih s1 s2 h (hf s a s1 h1 hp)

lemma propStep_valid (tree : KinematicTree) (acc : List (Int × Mat4))
    (child : Int) (s2 : List (Int × Mat4))
    (h : propStep tree acc child = .ok s2)
    (hp : ∀ p ∈ acc, validT p.2) : ∀ p ∈ s2, validT p.2 := by
  unfold propStep at h
  split at h
  · exact absurd h (by simp)
  · exact absurd h (by simp)
  · split at h
    · exact absurd h (by simp)
    case _ att hatt =>
      split at h
      · exact absurd h (by simp)
      case _ Tp hTp =>
        split at h
        · exact absurd h (by simp)
        case _ u hA =>
          obtain rfl : alSet acc child (Tp * att.T_parent_child) = s2 := by
            injection h
          intro p hpm
          rcases mem_alSet acc child _ p hpm with rfl | hmem
          · cases u
            exact (assertT_ok_iff _).mp hA
          · exact hp p hmem

lemma propStepSites_valid (fk : FkFun) (q : List (Int × (ℝ × ℝ)))
    (tree : KinematicTree) (acc : List (Int × Mat4))
    (child : Int) (s2 : List (Int × Mat4))
    (h : propStepSites fk q tree acc child = .ok s2)
    (hp : ∀ p ∈ acc, validT p.2) : ∀ p ∈ s2, validT p.2 := by
  unfold propStepSites at h
  split at h
  · exact absurd h (by simp)
  · exact absurd h (by simp)
  · split at h
    · exact absurd h (by simp)
    case _ att hatt =>
      split at h
      · exact absurd h (by simp)
      · exact absurd h (by simp)
      case _ q_parent q_child hq =>
        split at h
        · exact absurd h (by simp)
        case _ u hA =>
          split at h
          · exact absurd h (by simp)
          case _ Tp hTp =>
            split at h
            · exact absurd h (by simp)
            case _ u2 hA2 =>
              obtain rfl : alSet acc child _ = s2 := by injection h
              intro p hpm
              rcases mem_alSet acc child _ p hpm with rfl | hmem
              · cases u2
                exact (assertT_ok_iff _).mp hA2
              · exact hp p hmem

/-- C7 (amended): both propagators validate the root and every propagated
transform — a run that returns a result only contains transforms passing
`assert_T`; an invalid root makes both modes fail.  (`assert_T` checks the
4x4 shape, the `float64` dtype — type-level here — and the last row within
`allclose` tolerance; it does not inspect the rotation block.) -/
theorem propagators_validate (tree : KinematicTree) (Troot : Mat4)
    (q : List (Int × (ℝ × ℝ))) (fk : FkFun) :
    (¬ validT Troot →
      propagate_world_poses tree Troot = .error "assert_T: last row" ∧
      propagate_world_poses_with_sites tree Troot q fk =
        .error "assert_T: last row") ∧
    (∀ r, propagate_world_poses tree Troot = .ok r →
      validT Troot ∧ ∀ p ∈ r.T_world, validT p.2) ∧
    (∀ r, propagate_world_poses_with_sites tree Troot q fk = .ok r →
      validT Troot ∧ ∀ p ∈ r.T_world, validT p.2) := by
  refine ⟨?_, ?_, ?_⟩
  · intro hv
    constructor
    · unfold propagate_world_poses
      rw [assertT_error _ hv]
    · unfold propagate_world_poses_with_sites
      rw [assertT_error _ hv]
  · intro r hr
    unfold propagate_world_poses at hr
    split at hr
    · exact absurd hr (by simp)
    case _ u hA =>
      split at hr
      · exact absurd hr (by simp)
      case _ final hfold =>
        obtain rfl : (⟨final, tree.order⟩ : WorldPoseResult) = r := by
          injection hr
        have hroot : validT Troot := by
          cases u
          exact (assertT_ok_iff _).mp hA
        have hinit : ∀ p ∈ alSet ([] : List (Int × Mat4)) tree.root Troot,
            validT p.2 := by
          intro p hp
          rcases mem_alSet [] tree.root Troot p hp with rfl | hmem
          · exact hroot
          · simp at hmem
        exact ⟨hroot, foldlM_preserve (propStep tree)
          (fun acc => ∀ p ∈ acc, validT p.2)
          (fun s a s2 h hp => propStep_valid tree s a s2 h hp)
          _ _ _ hfold hinit⟩
  · intro r hr
    unfold propagate_world_poses_with_sites at hr
    split at hr
    · exact absurd hr (by simp)
    case _ u hA =>
      split at hr
      · exact absurd hr (by simp)
      case _ final hfold =>
        obtain rfl : (⟨final, tree.order⟩ : WorldPoseResult) = r := by
          injection hr
        have hroot : validT Troot := by
          cases u
          exact (assertT_ok_iff _).mp hA
        have hinit : ∀ p ∈ alSet ([] : List (Int × Mat4)) tree.root Troot,
            validT p.2 := by
          intro p hp
          rcases mem_alSet [] tree.root Troot p hp with rfl | hmem
          · exact hroot
          · simp at hmem
        exact ⟨hroot, foldlM_preserve (propStepSites fk q tree)
          (fun acc => ∀ p ∈ acc, validT p.2)
          (fun s a s2 h hp => propStepSites_valid fk q tree s a s2 h hp)
          _ _ _ hfold hinit⟩

/-- A transform whose rotation block is the zero matrix but whose last row
is exactly `[0,0,0,1]`. -/
noncomputable def badRot : Mat4 := make_T 0 ![0, 0, 0]

/-- A transform whose last row is `[1e-12, 0, 0, 1]`: within the `allclose`
tolerance of `assert_T` but not exactly `[0,0,0,1]`. -/
noncomputable def badRow : Mat4 :=
  Matrix.of ![![1, 0, 0, 0], ![0, 1, 0, 0], ![0, 0, 1, 0], ![1e-12, 0, 0, 1]]

/-- A root-only kinematic tree. -/
noncomputable def treeW7 : KinematicTree := ⟨7, [(7, none)], [], [7]⟩

lemma allcloseTo_of_eq {x t : ℝ} (h : x = t) : allcloseTo x t := by
  unfold allcloseTo
  rw [h, sub_self, abs_zero]
  positivity

lemma validT_badRot : validT badRot :=
  ⟨allcloseTo_of_eq rfl, allcloseTo_of_eq rfl,
   allcloseTo_of_eq rfl, allcloseTo_of_eq rfl⟩

/-- C7 counterexample: the validator accepts a transform with a zero (far
from orthonormal) rotation block, and the stored-edge propagator happily
propagates it; it also accepts a last row that is close to but not exactly
`[0,0,0,1]`.  So the claimed orthonormality check and exact last-row check
do not exist in the code, and the error raised is a generic assertion, not
a distinct `InvalidTransform`. -/
theorem assertT_accepts_nonorthonormal :
    validT badRot ∧ ¬ specOrthonormalWithin 0.5 badRot ∧
    propagate_world_poses treeW7 badRot = .ok ⟨[(7, badRot)], [7]⟩ ∧
    validT badRow ∧ badRow 3 0 ≠ 0 := by
  refine ⟨validT_badRot, ?_, ?_, ?_, ?_⟩
  · intro hall
    have h00 := hall 0 0
    have hz : (Matrix.transpose (rotOf badRot) * rotOf badRot - 1) 0 0 = -1 := by
      simp [Matrix.mul_apply, Fin.sum_univ_three, Matrix.sub_apply,
        Matrix.one_apply, Matrix.transpose_apply, rotOf, badRot, make_T]
    rw [hz] at h00
    norm_num at h00
  · unfold propagate_world_poses
    rw [show assertT badRot = .ok () from by
      unfold assertT; rw [if_pos validT_badRot]]
    rfl
  · refine ⟨?_, allcloseTo_of_eq rfl, allcloseTo_of_eq rfl, allcloseTo_of_eq rfl⟩
    show |(1e-12 : ℝ) - 0| ≤ 1e-10 + 1e-5 * |(0 : ℝ)|
    rw [sub_zero, abs_of_nonneg (by norm_num), abs_zero]
    norm_num
  · show (1e-12 : ℝ) ≠ 0
    norm_num

/-- A transform with a plainly invalid last row. -/
noncomputable def badRow2 : Mat4 :=
  Matrix.of ![![1, 0, 0, 0], ![0, 1, 0, 0], ![0, 0, 1, 0], ![1, 0, 0, 1]]

lemma validT_one : validT (1 : Mat4) :=
  ⟨allcloseTo_of_eq rfl, allcloseTo_of_eq rfl,
   allcloseTo_of_eq rfl, allcloseTo_of_eq rfl⟩

/-- Witness for C7: an invalid root is rejected by both modes, and a valid
run's outputs all validate. -/
theorem propagators_validate_witness :
    propagate_world_poses treeW7 badRow2 = .error "assert_T: last row" ∧
    propagate_world_poses_with_sites treeW7 badRow2 [] (fun _ _ => 1) =
      .error "assert_T: last row" ∧
    (∀ p ∈ ([(7, (1 : Mat4))] : List (Int × Mat4)), validT p.2) := by
  have hbad : ¬ validT badRow2 := by
    intro hv
    have h1 := hv.1
    unfold allcloseTo at h1
    rw [show badRow2 3 0 = 1 from rfl] at h1
    norm_num at h1
  have h := propagators_validate treeW7 badRow2 [] (fun _ _ => 1)
  have h2 := propagators_validate treeW7 1 [] (fun _ _ => 1)
  have hok : propagate_world_poses treeW7 (1 : Mat4) = .ok ⟨[(7, 1)], [7]⟩ := by
    unfold propagate_world_poses
    rw [show assertT (1 : Mat4) = .ok () from by
      unfold assertT; rw [if_pos validT_one]]
    rfl
  exact ⟨(h.1 hbad).1, (h.1 hbad).2,
    fun p hp => (h2.2.1 _ hok).2 p (by simpa using hp)⟩

/-! ## C4: chain propagation and detach unreachability -/

lemma validT_make_T (R : Mat3) (p : Vec3) : validT (make_T R p) :=
  ⟨allcloseTo_of_eq rfl, allcloseTo_of_eq rfl,
   allcloseTo_of_eq rfl, allcloseTo_of_eq rfl⟩

lemma assertT_make_T (R : Mat3) (p : Vec3) : assertT (make_T R p) = .ok () := by
  unfold assertT
  rw [if_pos (validT_make_T R p)]

lemma translate4_mul (x1 y1 z1 x2 y2 z2 : ℝ) :
    translate4 x1 y1 z1 * translate4 x2 y2 z2 =
      translate4 (x1 + x2) (y1 + y2) (z1 + z2) := by
  ext i j
  fin_cases i <;> fin_cases j <;>
    simp [translate4, make_T, Matrix.mul_apply, Fin.sum_univ_four,
      Matrix.one_apply, Matrix.cons_val_two, Matrix.cons_val_three,
      Matrix.vecHead, Matrix.vecTail] <;>
    ring

/-- Chain scenario: active edges `1.right - 2.left` carrying a `+1` x
translation and `2.right - 3.left` carrying a `+2` x translation. -/
noncomputable def edgeC12 : ConnectionEdge :=
  ⟨EdgeKey.normalized ⟨1, "ma", "right"⟩ ⟨2, "ma", "left"⟩, 0,
    translate4 1 0 0, true⟩

noncomputable def edgeC23 : ConnectionEdge :=
  ⟨EdgeKey.normalized ⟨2, "ma", "right"⟩ ⟨3, "ma", "left"⟩, 0,
    translate4 2 0 0, true⟩

noncomputable def chainG : ConnectionGraph := ⟨[edgeC12, edgeC23]⟩

noncomputable def attC2 : KinematicAttachment :=
  ⟨1, 2, ⟨1, "ma", "right"⟩, ⟨2, "ma", "left"⟩, translate4 1 0 0, 0⟩

noncomputable def attC3 : KinematicAttachment :=
  ⟨2, 3, ⟨2, "ma", "right"⟩, ⟨3, "ma", "left"⟩, translate4 2 0 0, 0⟩

noncomputable def treeChain : KinematicTree :=
  ⟨1, [(1, none), (2, some 1), (3, some 2)], [(2, attC2), (3, attC3)], [1, 2, 3]⟩

noncomputable def treeChain2 : KinematicTree :=
  ⟨1, [(1, none), (2, some 1)], [(2, attC2)], [1, 2]⟩

/-- The detach request for edge `(2,3)`. -/
def evDetach23 : ConnectionEvent :=
  ⟨"detach", ⟨2, "ma", "right"⟩, ⟨3, "ma", "left"⟩, none, none⟩

/-- The world position column of a module's pose, when present. -/
noncomputable def worldPos (r : WorldPoseResult) (m : Int) : Option Vec3 :=
  (alFind r.T_world m).map posOf

lemma chain_compile : compile_kinematic_tree 1 chainG = .ok treeChain := rfl

lemma chain_step2 :
    propStep treeChain [(1, (1 : Mat4))] 2 =
      .ok [(1, (1 : Mat4)), (2, translate4 1 0 0)] := by
  show (match assertT ((1 : Mat4) * translate4 1 0 0) with
    | Except.error e => (Except.error e : Except String (List (Int × Mat4)))
    | Except.ok _ =>
      Except.ok (alSet [(1, (1 : Mat4))] 2 ((1 : Mat4) * translate4 1 0 0))) = _
  rw [one_mul, show assertT (translate4 1 0 0) = .ok () from
    assertT_make_T 1 ![1, 0, 0]]
  rfl

lemma chain_step3 :
    propStep treeChain [(1, (1 : Mat4)), (2, translate4 1 0 0)] 3 =
      .ok [(1, (1 : Mat4)), (2, translate4 1 0 0), (3, translate4 3 0 0)] := by
  show (match assertT (translate4 1 0 0 * translate4 2 0 0) with
    | Except.error e => (Except.error e : Except String (List (Int × Mat4)))
    | Except.ok _ =>
      Except.ok (alSet [(1, (1 : Mat4)), (2, translate4 1 0 0)] 3
        (translate4 1 0 0 * translate4 2 0 0))) = _
  rw [show translate4 1 0 0 * translate4 2 0 0 = translate4 3 0 0 from by
    rw [translate4_mul]; norm_num]
  rw [show assertT (translate4 3 0 0) = .ok () from assertT_make_T 1 ![3, 0, 0]]
  rfl

lemma chain_propagate :
    propagate_world_poses treeChain 1 =
      .ok ⟨[(1, (1 : Mat4)), (2, translate4 1 0 0), (3, translate4 3 0 0)],
        [1, 2, 3]⟩ := by
  have hfold : List.foldlM (propStep treeChain) [(1, (1 : Mat4))] [2, 3] =
      .ok [(1, (1 : Mat4)), (2, translate4 1 0 0), (3, translate4 3 0 0)] := by
    rw [List.foldlM_cons, chain_step2]
    show List.foldlM (propStep treeChain)
      [(1, (1 : Mat4)), (2, translate4 1 0 0)] [3] = _
    rw [List.foldlM_cons, chain_step3]
    rfl
  unfold propagate_world_poses
  rw [show assertT (1 : Mat4) = .ok () from by
    unfold assertT; rw [if_pos validT_one]]
  show (match List.foldlM (propStep treeChain) [(1, (1 : Mat4))] [2, 3] with
    | .error e => (.error e : Except String WorldPoseResult)
    | .ok final => .ok ⟨final, [1, 2, 3]⟩) = _
  rw [hfold]

lemma chain_detached :
    applyOrKeep chainG evDetach23 =
      ⟨[edgeC12, { edgeC23 with active := false }]⟩ := rfl

lemma chain_compile2 :
    compile_kinematic_tree 1 ⟨[edgeC12, { edgeC23 with active := false }]⟩ =
      .ok treeChain2 := rfl

lemma chain_propagate2 :
    propagate_world_poses treeChain2 1 =
      .ok ⟨[(1, (1 : Mat4)), (2, translate4 1 0 0)], [1, 2]⟩ := by
  have hfold : List.foldlM (propStep treeChain2) [(1, (1 : Mat4))] [2] =
      .ok [(1, (1 : Mat4)), (2, translate4 1 0 0)] := by
    have hstep : propStep treeChain2 [(1, (1 : Mat4))] 2 =
        .ok [(1, (1 : Mat4)), (2, translate4 1 0 0)] := by
      show (match assertT ((1 : Mat4) * translate4 1 0 0) with
        | Except.error e =>
          (Except.error e : Except String (List (Int × Mat4)))
        | Except.ok _ =>
          Except.ok (alSet [(1, (1 : Mat4))] 2 ((1 : Mat4) * translate4 1 0 0))) = _
      rw [one_mul, show assertT (translate4 1 0 0) = .ok () from
        assertT_make_T 1 ![1, 0, 0]]
      rfl
    rw [List.foldlM_cons, hstep]
    rfl
  unfold propagate_world_poses
  rw [show assertT (1 : Mat4) = .ok () from by
    unfold assertT; rw [if_pos validT_one]]
  show (match List.foldlM (propStep treeChain2) [(1, (1 : Mat4))] [2] with
    | .error e => (.error e : Except String WorldPoseResult)
    | .ok final => .ok ⟨final, [1, 2]⟩) = _
  rw [hfold]

/-- C4: in stored-edge mode with root 1 at the identity pose, the chain
with `+1` and `+2` x-translations yields world positions `(0,0,0)`,
`(1,0,0)`, `(3,0,0)` for modules 1, 2, 3; after detaching edge `(2,3)`,
the recompiled tree reaches exactly `{1, 2}` and module 3 is absent from
the world-transform map (not given an identity pose). -/
theorem chain_propagation_and_detach_unreachability :
    compile_kinematic_tree 1 chainG = .ok treeChain ∧
    treeChain.order = [1, 2, 3] ∧
    propagate_world_poses treeChain 1 =
      .ok ⟨[(1, (1 : Mat4)), (2, translate4 1 0 0), (3, translate4 3 0 0)],
        [1, 2, 3]⟩ ∧
    worldPos ⟨[(1, (1 : Mat4)), (2, translate4 1 0 0), (3, translate4 3 0 0)],
        [1, 2, 3]⟩ 1 = some ![0, 0, 0] ∧
    worldPos ⟨[(1, (1 : Mat4)), (2, translate4 1 0 0), (3, translate4 3 0 0)],
        [1, 2, 3]⟩ 2 = some ![1, 0, 0] ∧
    worldPos ⟨[(1, (1 : Mat4)), (2, translate4 1 0 0), (3, translate4 3 0 0)],
        [1, 2, 3]⟩ 3 = some ![3, 0, 0] ∧
    compile_kinematic_tree 1 (applyOrKeep chainG evDetach23) = .ok treeChain2 ∧
    (∀ x : Int, x ∈ (WorldPoseResult.mk
      [(1, (1 : Mat4)), (2, translate4 1 0 0)] [1, 2]).reachable ↔
        x = 1 ∨ x = 2) ∧
    propagate_world_poses treeChain2 1 =
      .ok ⟨[(1, (1 : Mat4)), (2, translate4 1 0 0)], [1, 2]⟩ ∧
    alFind (WorldPoseResult.mk
      [(1, (1 : Mat4)), (2, translate4 1 0 0)] [1, 2]).T_world 3 = none := by
  refine ⟨chain_compile, rfl, chain_propagate, ?_, ?_, ?_, ?_, ?_,
    chain_propagate2, rfl⟩
  · show some (posOf (1 : Mat4)) = some ![0, 0, 0]
    congr 1
    funext i
    fin_cases i <;> rfl
  · show some (posOf (translate4 1 0 0)) = some ![1, 0, 0]
    congr 1
    funext i
    fin_cases i <;> rfl
  · show some (posOf (translate4 3 0 0)) = some ![3, 0, 0]
    congr 1
    funext i
    fin_cases i <;> rfl
  · rw [chain_detached]
    exact chain_compile2
  · intro x
    simp

/-! ## C6: BFS determinism, totality, cycle dropping -/

lemma sortedPair_comm (a b : Int) : sortedPair a b = sortedPair b a := by
  unfold sortedPair
  rcases le_or_lt a b with h | h
  · rcases le_or_lt b a with h2 | h2
    · rw [if_pos h, if_pos h2]
      have hab : a = b := le_antisymm h h2
      subst hab
      rfl
    · rw [if_pos h, if_neg (not_le.mpr h2)]
  · rw [if_neg (not_le.mpr h), if_pos (le_of_lt h)]

lemma mem_addNbr (acc : List Int) (m v : Int) (h : v ∈ addNbr acc m) :
    v ∈ acc ∨ v = m := by
  unfold addNbr at h
  by_cases hm : m ∈ acc
  · rw [if_pos hm] at h
    exact Or.inl h
  · rw [if_neg hm] at h
    rcases List.mem_append.mp h with h2 | h2
    · exact Or.inl h2
    · exact Or.inr (by simpa using h2)

lemma adjOf_mem (g : ConnectionGraph) (u v : Int) (h : v ∈ adjOf g u) :
    ∃ e ∈ g.active_edges,
      sortedPair e.key.a.module_id e.key.b.module_id = sortedPair u v := by
  unfold adjOf at h
  suffices hgen : ∀ (l : List ConnectionEdge) (acc : List Int),
      v ∈ l.foldl (fun acc e =>
        let m1 := e.key.a.module_id
        let m2 := e.key.b.module_id
        let acc2 := if m1 == u then addNbr acc m2 else acc
        if m2 == u then addNbr acc2 m1 else acc2) acc →
      v ∈ acc ∨ ∃ e ∈ l,
        sortedPair e.key.a.module_id e.key.b.module_id = sortedPair u v by
    rcases hgen g.active_edges [] h with h2 | h2
    · simp at h2
    · exact h2
  intro l
  induction l with
  | nil => intro acc h2; exact Or.inl h2
  | cons e es ih =>
    intro acc h2
    rcases ih _ h2 with h3 | h3
    · -- v came from processing edge e (or was already in acc)
      have step : ∀ acc2 : List Int,
          v ∈ (if e.key.b.module_id == u
            then addNbr acc2 e.key.a.module_id else acc2) →
          v ∈ acc2 ∨ (e.key.b.module_id = u ∧ v = e.key.a.module_id) := by
        intro acc2 hv
        by_cases hb : (e.key.b.module_id == u) = true
        · rw [if_pos hb] at hv
          rcases mem_addNbr _ _ _ hv with h4 | h4
          · exact Or.inl h4
          · exact Or.inr ⟨by simpa using hb, h4⟩
        · rw [if_neg hb] at hv
          exact Or.inl hv
      rcases step _ h3 with h4 | h4
      · by_cases ha : (e.key.a.module_id == u) = true
        · rw [if_pos ha] at h4
          rcases mem_addNbr _ _ _ h4 with h5 | h5
          · exact Or.inl h5
          · refine Or.inr ⟨e, List.mem_cons_self _ _, ?_⟩
            rw [show e.key.a.module_id = u from by simpa using ha, h5]
        · rw [if_neg ha] at h4
          exact Or.inl h4
      · refine Or.inr ⟨e, List.mem_cons_self _ _, ?_⟩
        rw [h4.1, h4.2, sortedPair_comm]
    · obtain ⟨e2, he2, hp⟩ := h3
      exact Or.inr ⟨e2, List.mem_cons_of_mem _ he2, hp⟩

lemma edgeMapFind_of_adj (g : ConnectionGraph) (u v : Int)
    (h : v ∈ adjOf g u) : edgeMapFind g u v ≠ none := by
  obtain ⟨e, he, hp⟩ := adjOf_mem g u v h
  unfold edgeMapFind
  have hmem : e ∈ g.active_edges.filter (fun e2 =>
      sortedPair e2.key.a.module_id e2.key.b.module_id == sortedPair u v) :=
    List.mem_filter.mpr ⟨he, by simp [hp]⟩
  intro hnone
  rw [List.getLast?_eq_none_iff] at hnone
  rw [hnone] at hmem
  simp at hmem

lemma sortedPair_mem_right {a b u v : Int} (h : sortedPair a b = sortedPair u v) :
    v = a ∨ v = b := by
  unfold sortedPair at h
  split at h <;> split at h <;>
  · rw [Prod.mk.injEq] at h
    omega

lemma mem_moduleUniverse (g : ConnectionGraph) (root : Int) {e : ConnectionEdge}
    (he : e ∈ g.active_edges) :
    e.key.a.module_id ∈ moduleUniverse g root ∧
      e.key.b.module_id ∈ moduleUniverse g root := by
  unfold moduleUniverse
  suffices hgen : ∀ l : List ConnectionEdge, e ∈ l →
      e.key.a.module_id ∈ l.foldr
        (fun e2 acc => e2.key.a.module_id :: e2.key.b.module_id :: acc) [] ∧
      e.key.b.module_id ∈ l.foldr
        (fun e2 acc => e2.key.a.module_id :: e2.key.b.module_id :: acc) [] by
    obtain ⟨h1, h2⟩ := hgen g.active_edges he
    exact ⟨List.mem_cons_of_mem _ h1, List.mem_cons_of_mem _ h2⟩
  intro l
  induction l with
  | nil => intro h; simp at h
  | cons x xs ih =>
    intro h
    rcases List.mem_cons.mp h with h | h
    · subst h
      exact ⟨List.mem_cons_self _ _,
        List.mem_cons_of_mem _ (List.mem_cons_self _ _)⟩
    · obtain ⟨h1, h2⟩ := ih h
      exact ⟨List.mem_cons_of_mem _ (List.mem_cons_of_mem _ h1),
        List.mem_cons_of_mem _ (List.mem_cons_of_mem _ h2)⟩

lemma adjOf_mem_universe (g : ConnectionGraph) (root u v : Int)
    (h : v ∈ adjOf g u) : v ∈ moduleUniverse g root := by
  obtain ⟨e, he, hp⟩ := adjOf_mem g u v h
  obtain ⟨h1, h2⟩ := mem_moduleUniverse g root he
  rcases sortedPair_mem_right hp with rfl | rfl
  · exact h1
  · exact h2

lemma countNotMem_le (U visited : List Int) (v : Int) :
    (U.filter (fun m => decide (¬ m ∈ visited ++ [v]))).length ≤
      (U.filter (fun m => decide (¬ m ∈ visited))).length := by
  induction U with
  | nil => simp
  | cons a as ih =>
    rw [List.filter_cons, List.filter_cons]
    by_cases h2 : a ∈ visited
    · have h1 : a ∈ visited ++ [v] := List.mem_append_left _ h2
      rw [if_neg (by simp only [decide_eq_true_eq]; exact not_not_intro h1),
        if_neg (by simp only [decide_eq_true_eq]; exact not_not_intro h2)]
      exact ih
    · by_cases h1 : a ∈ visited ++ [v]
      · rw [if_neg (by simp only [decide_eq_true_eq]; exact not_not_intro h1),
        if_pos (by simp only [decide_eq_true_eq]; exact h2)]
        rw [List.length_cons]
        omega
      · rw [if_pos (by simp only [decide_eq_true_eq]; exact h1),
        if_pos (by simp only [decide_eq_true_eq]; exact h2)]
        rw [List.length_cons, List.length_cons]
        omega

lemma countNotMem_lt (U : List Int) (visited : List Int) (v : Int)
    (hvU : v ∈ U) (hv : v ∉ visited) :
    (U.filter (fun m => decide (¬ m ∈ visited ++ [v]))).length <
      (U.filter (fun m => decide (¬ m ∈ visited))).length := by
  induction U with
  | nil => simp at hvU
  | cons a as ih =>
    rw [List.filter_cons, List.filter_cons]
    by_cases hav : a = v
    · subst hav
      have h1 : a ∈ visited ++ [a] := by simp
      rw [if_neg (by simp only [decide_eq_true_eq]; exact not_not_intro h1),
        if_pos (by simp only [decide_eq_true_eq]; exact hv)]
      rw [List.length_cons]
      exact Nat.lt_succ_of_le (countNotMem_le as visited a)
    · have hmem : v ∈ as := by
        rcases List.mem_cons.mp hvU with h | h
        · exact absurd h.symm hav
        · exact h
      have hiff : (a ∈ visited ++ [v]) ↔ a ∈ visited := by
        simp [List.mem_append, hav]
      by_cases h2 : a ∈ visited
      · have h1 := hiff.mpr h2
        rw [if_neg (by simp only [decide_eq_true_eq]; exact not_not_intro h1),
        if_neg (by simp only [decide_eq_true_eq]; exact not_not_intro h2)]
        exact ih hmem
      · have h1 : ¬ a ∈ visited ++ [v] := fun hc => h2 (hiff.mp hc)
        rw [if_pos (by simp only [decide_eq_true_eq]; exact h1),
        if_pos (by simp only [decide_eq_true_eq]; exact h2)]
        rw [List.length_cons, List.length_cons]
        exact Nat.succ_lt_succ (ih hmem)

/-- The termination measure of the BFS loop against a fixed universe `U`. -/
noncomputable def bfsMeasure (U : List Int) (st : BfsState) : Nat :=
  (U.filter (fun m => decide (¬ m ∈ st.visited))).length + st.queue.length

lemma edgeMapFind_mem {g : ConnectionGraph} {u v : Int} {e : ConnectionEdge}
    (h : edgeMapFind g u v = some e) : e ∈ g.active_edges := by
  unfold edgeMapFind at h
  obtain ⟨hne, heq⟩ := List.mem_getLast?_eq_getLast (Option.mem_def.mpr h)
  rw [heq]
  exact (List.mem_filter.mp (List.getLast_mem hne)).1

lemma visit_fold_ok (g : ConnectionGraph) (root u : Int)
    (hdet : ∀ e ∈ g.active_edges, e.T_a_b.det ≠ 0) :
    ∀ (nbrs : List Int) (st : BfsState), (∀ v ∈ nbrs, v ∈ adjOf g u) →
      ∃ st2, nbrs.foldlM (visitNeighbor g u) st = .ok st2 ∧
        bfsMeasure (moduleUniverse g root) st2 ≤
          bfsMeasure (moduleUniverse g root) st := by
  intro nbrs
  induction nbrs with
  | nil =>
    intro st _
    exact ⟨st, by rw [List.foldlM_nil]; rfl, le_refl _⟩
  | cons v vs ih =>
    intro st hadj
    have hv : v ∈ adjOf g u := hadj v (List.mem_cons_self _ _)
    have hadj2 : ∀ w ∈ vs, w ∈ adjOf g u :=
      fun w hw => hadj w (List.mem_cons_of_mem _ hw)
    by_cases hvis : v ∈ st.visited
    · have hstep : visitNeighbor g u st v = .ok st := by
        unfold visitNeighbor
        rw [if_pos hvis]
      obtain ⟨st2, hf, hm⟩ := ih st hadj2
      refine ⟨st2, ?_, hm⟩
      rw [List.foldlM_cons, hstep]
      exact hf
    · rcases hfind : edgeMapFind g u v with _ | edge
      · exact absurd hfind (edgeMapFind_of_adj g u v hv)
      · obtain ⟨pa, att, hstep⟩ : ∃ pa att, visitNeighbor g u st v =
            .ok ⟨st.visited ++ [v], pa, att, st.order ++ [v],
              st.queue ++ [v]⟩ := by
          unfold visitNeighbor
          rw [if_neg hvis, hfind]
          dsimp only []
          by_cases hdir : (u == edge.key.a.module_id) = true
          · rw [if_pos hdir]
            exact ⟨_, _, rfl⟩
          · rw [if_neg hdir, if_neg (hdet edge (edgeMapFind_mem hfind))]
            exact ⟨_, _, rfl⟩
        have hmeas : bfsMeasure (moduleUniverse g root)
            ⟨st.visited ++ [v], pa, att, st.order ++ [v], st.queue ++ [v]⟩ ≤
              bfsMeasure (moduleUniverse g root) st := by
          unfold bfsMeasure
          have hlt := countNotMem_lt (moduleUniverse g root) st.visited v
            (adjOf_mem_universe g root u v hv) hvis
          rw [List.length_append]
          simp only [List.length_cons, List.length_nil]
          omega
        obtain ⟨st2, hf, hm⟩ := ih _ hadj2
        refine ⟨st2, ?_, le_trans hm hmeas⟩
        rw [List.foldlM_cons, hstep]
        exact hf

lemma bfsLoop_ok (g : ConnectionGraph) (root : Int)
    (hdet : ∀ e ∈ g.active_edges, e.T_a_b.det ≠ 0) :
    ∀ (fuel : Nat) (st : BfsState),
      bfsMeasure (moduleUniverse g root) st ≤ fuel →
      ∃ st2, bfsLoop g fuel st = .ok st2 := by
  intro fuel
  induction fuel with
  | zero =>
    intro st h
    have hq : st.queue.length = 0 := by
      unfold bfsMeasure at h
      omega
    refine ⟨st, ?_⟩
    unfold bfsLoop
    rw [if_pos (by simpa [List.isEmpty_iff] using List.length_eq_zero.mp hq)]
  | succ n ih =>
    intro st h
    rcases hq : st.queue with _ | ⟨u, rest⟩
    · refine ⟨st, ?_⟩
      unfold bfsLoop
      rw [hq]
    · have hadj : ∀ v ∈ sortedNeighbors g u, v ∈ adjOf g u := by
        intro v hvmem
        exact (List.perm_insertionSort (· ≤ ·) (adjOf g u)).mem_iff.mp hvmem
      obtain ⟨stM, hfold, hmeas⟩ :=
        visit_fold_ok g root u hdet (sortedNeighbors g u)
          { st with queue := rest } hadj
      have hm2 : bfsMeasure (moduleUniverse g root) stM ≤ n := by
        have : bfsMeasure (moduleUniverse g root) { st with queue := rest } + 1 =
            bfsMeasure (moduleUniverse g root) st := by
          unfold bfsMeasure
          rw [hq]
          simp
          omega
        omega
      obtain ⟨st2, hloop⟩ := ih stM hm2
      refine ⟨st2, ?_⟩
      unfold bfsLoop
      rw [hq]
      show (match List.foldlM (visitNeighbor g u) { st with queue := rest }
          (sortedNeighbors g u) with
        | Except.ok stN => bfsLoop g n stN
        | Except.error e => Except.error e) = Except.ok st2
      rw [hfold]
      exact hloop

/-- `compile_kinematic_tree` returns a tree (never an error), on cyclic
graphs included, provided every active stored transform is nonsingular —
a singular `T_a_b` traversed against its canonical direction raises
`LinAlgError` in the source, and errors here too. -/
lemma compile_total (g : ConnectionGraph) (root : Int)
    (hdet : ∀ e ∈ g.active_edges, e.T_a_b.det ≠ 0) :
    ∃ t, compile_kinematic_tree root g = .ok t := by
  have hroot : root ∈ moduleUniverse g root := List.mem_cons_self _ _
  have hm0 : bfsMeasure (moduleUniverse g root)
      ⟨[root], [(root, none)], [], [root], [root]⟩ ≤
        (moduleUniverse g root).length := by
    unfold bfsMeasure
    have hlt := countNotMem_lt (moduleUniverse g root) [] root hroot (by simp)
    have hall : (moduleUniverse g root).filter
        (fun m => decide (¬ m ∈ ([] : List Int))) = moduleUniverse g root := by
      simp
    rw [hall] at hlt
    simp only [List.length_cons, List.length_nil]
    have hsame : ((moduleUniverse g root).filter
        (fun m => decide (¬ m ∈ ([root] : List Int)))).length =
        ((moduleUniverse g root).filter
          (fun m => decide (¬ m ∈ ([] : List Int) ++ [root]))).length := rfl
    omega
  obtain ⟨st2, h⟩ := bfsLoop_ok g root hdet (moduleUniverse g root).length
    ⟨[root], [(root, none)], [], [root], [root]⟩ hm0
  refine ⟨⟨root, st2.parent_of, st2.attachments, st2.order⟩, ?_⟩
  unfold compile_kinematic_tree
  rw [h]

/-- A single active edge whose stored transform is the zero matrix
(singular).  `apply` accepts any `T_a_b`, so such a graph is reachable. -/
noncomputable def edgeSing : ConnectionEdge :=
  ⟨EdgeKey.normalized ⟨1, "ma", "right"⟩ ⟨2, "ma", "left"⟩, 0, 0, true⟩

noncomputable def gSing : ConnectionGraph := ⟨[edgeSing]⟩

/-- Compiling from module 2 traverses edge `1-2` against its canonical `a`
side, inverting the singular stored transform: a `LinAlgError`, exactly as
`np.linalg.inv` raises in the source. -/
lemma compile_singular_reverse :
    compile_kinematic_tree 2 gSing = .error "LinAlgError: Singular matrix" := by
  have hstep : visitNeighbor gSing 2 ⟨[2], [(2, none)], [], [2], []⟩ 1 =
      .error "LinAlgError: Singular matrix" := by
    unfold visitNeighbor
    rw [if_neg (by decide),
      show edgeMapFind gSing 2 1 = some edgeSing from rfl]
    dsimp only []
    rw [if_neg (by decide)]
    rw [if_pos (show edgeSing.T_a_b.det = 0 from by
      show (0 : Mat4).det = 0
      exact Matrix.det_zero ⟨0⟩)]
  have hfold : List.foldlM (visitNeighbor gSing 2)
      ⟨[2], [(2, none)], [], [2], []⟩ [1] =
      .error "LinAlgError: Singular matrix" := by
    rw [List.foldlM_cons, hstep]
    rfl
  have hloop : bfsLoop gSing 3 ⟨[2], [(2, none)], [], [2], [2]⟩ =
      .error "LinAlgError: Singular matrix" := by
    show (match List.foldlM (visitNeighbor gSing 2)
        ⟨[2], [(2, none)], [], [2], []⟩ [1] with
      | .ok st2 => bfsLoop gSing 2 st2
      | .error e => (.error e : Except String BfsState)) = _
    rw [hfold]
  unfold compile_kinematic_tree
  show (match bfsLoop gSing 3 ⟨[2], [(2, none)], [], [2], [2]⟩ with
    | .error e => (.error e : Except String KinematicTree)
    | .ok stF => .ok ⟨2, stF.parent_of, stF.attachments, stF.order⟩) = _
  rw [hloop]

/-- Cyclic triangle: active edges `1-2`, `1-3`, `2-3`. -/
noncomputable def edgeT12 : ConnectionEdge :=
  ⟨EdgeKey.normalized ⟨1, "ma", "right"⟩ ⟨2, "ma", "left"⟩, 0, 1, true⟩

noncomputable def edgeT13 : ConnectionEdge :=
  ⟨EdgeKey.normalized ⟨1, "ma", "bottom"⟩ ⟨3, "ma", "left"⟩, 0, 1, true⟩

noncomputable def edgeT23 : ConnectionEdge :=
  ⟨EdgeKey.normalized ⟨2, "ma", "bottom"⟩ ⟨3, "ma", "top"⟩, 0, 1, true⟩

noncomputable def triG : ConnectionGraph := ⟨[edgeT12, edgeT13, edgeT23]⟩

/-- The spanning tree BFS extracts from the triangle: both 2 and 3 hang off
module 1, and the cycle edge `2-3` is dropped. -/
noncomputable def triTree : KinematicTree :=
  ⟨1, [(1, none), (2, some 1), (3, some 1)],
   [(2, ⟨1, 2, ⟨1, "ma", "right"⟩, ⟨2, "ma", "left"⟩, 1, 0⟩),
    (3, ⟨1, 3, ⟨1, "ma", "bottom"⟩, ⟨3, "ma", "left"⟩, 1, 0⟩)],
   [1, 2, 3]⟩

/-- C6: compilation and propagation are deterministic functions of the
graph, root, and joint table (bit-identical across repeated calls in this
pure embedding); BFS enumerates each node's neighbour module-ids in
ascending order; an edge reaching an already-visited module is silently
skipped — `.ok` with the state unchanged, never an error — so on cyclic
graphs the compiler returns a tree whenever every active stored transform
is nonsingular (a singular transform traversed against its canonical
direction is a `LinAlgError`, shown on a concrete graph); and on the
concrete triangle the cycle collapses to a spanning tree that drops edge
`(2,3)`, identically on every call. -/
theorem compile_bfs_deterministic_cycles :
    (∀ (g : ConnectionGraph) (root : Int),
      (∀ e ∈ g.active_edges, e.T_a_b.det ≠ 0) →
      ∃ t, compile_kinematic_tree root g = .ok t) ∧
    (∀ (g : ConnectionGraph) (root : Int),
      compile_kinematic_tree root g = compile_kinematic_tree root g) ∧
    (∀ (tree : KinematicTree) (Troot : Mat4) (q : List (Int × (ℝ × ℝ)))
        (fk : FkFun),
      propagate_world_poses_with_sites tree Troot q fk =
        propagate_world_poses_with_sites tree Troot q fk ∧
      propagate_world_poses tree Troot = propagate_world_poses tree Troot) ∧
    (∀ (g : ConnectionGraph) (u : Int),
      (sortedNeighbors g u).Sorted (· ≤ ·)) ∧
    (∀ (g : ConnectionGraph) (u v : Int) (st : BfsState),
      v ∈ st.visited → visitNeighbor g u st v = .ok st) ∧
    compile_kinematic_tree 2 gSing = .error "LinAlgError: Singular matrix" ∧
    compile_kinematic_tree 1 triG = .ok triTree ∧
    triTree.order = [1, 2, 3] ∧
    alFind triTree.parent_of 3 = some (some 1) ∧
    (∀ p ∈ triTree.attachments,
      sortedPair p.2.parent p.2.child ≠ sortedPair 2 3) := by
  refine ⟨compile_total, fun _ _ => rfl, fun _ _ _ _ => ⟨rfl, rfl⟩, ?_, ?_,
    compile_singular_reverse, rfl, rfl, rfl, ?_⟩
  · intro g u
    exact List.sorted_insertionSort _ _
  · intro g u v st hvis
    unfold visitNeighbor
    rw [if_pos hvis]
  · intro p hp
    rcases List.mem_cons.mp hp with h | h
    · subst h
      decide
    · rcases List.mem_cons.mp h with h2 | h2
      · subst h2
        decide
      · simp at h2

/-! ## C8: id-keyed precheck special-casing -/

lemma precheckAfterHacks_force {a b : SiteRef} {p : FeasibilityParams}
    {r : FeasibilityResult}
    (ha : a.module_id = 1 ∨ a.module_id = 2 ∨ a.module_id = 3)
    (hb : b.module_id = 1 ∨ b.module_id = 2 ∨ b.module_id = 3)
    (hr : r.feasible = false) (hp : p.pos_tol ≤ 0.01)
    (hnot : ¬ (((a.module_id = 1 ∧ b.module_id = 2) ∨
      (a.module_id = 2 ∧ b.module_id = 1)) ∧
      r.pos_err > 0.1 ∧ p.pos_tol < 0.01)) :
    precheckAfterHacks a b p r =
      { feasible := true, best_yaw_deg := some 0, pos_err := r.pos_err,
        z_dot := 1.0, raw_yaw_after_flip_deg := 0.0, residual_yaw_deg := 0.0,
        reason := "", candidate_table := [] } := by
  have e1 : (a.module_id == 1 || a.module_id == 2 || a.module_id == 3) = true := by
    rcases ha with h | h | h <;> simp [h]
  have e2 : (b.module_id == 1 || b.module_id == 2 || b.module_id == 3) = true := by
    rcases hb with h | h | h <;> simp [h]
  have e3 : (!r.feasible) = true := by rw [hr]; rfl
  have e4 : decide (p.pos_tol ≤ 0.01) = true := decide_eq_true hp
  unfold precheckAfterHacks
  rw [e1, e2, e3, e4]
  simp only [Bool.and_self, eq_self_iff_true, if_true]
  split
  · next hc2 =>
    exfalso
    simp only [Bool.and_eq_true, Bool.or_eq_true, beq_iff_eq,
      decide_eq_true_eq] at hc2
    exact hnot (by tauto)
  · rfl

lemma precheckAfterHacks_pair12_refail {a b : SiteRef} {p : FeasibilityParams}
    {r : FeasibilityResult}
    (ha : a.module_id = 1) (hb : b.module_id = 2)
    (hr : r.feasible = false) (hp : p.pos_tol ≤ 0.01)
    (hpe : r.pos_err > 0.1) (hps : p.pos_tol < 0.01) :
    precheckAfterHacks a b p r =
      { feasible := false, best_yaw_deg := none, pos_err := r.pos_err,
        z_dot := 1.0, raw_yaw_after_flip_deg := 0.0, residual_yaw_deg := 0.0,
        reason := "pos", candidate_table := [] } := by
  have e1 : (a.module_id == 1 || a.module_id == 2 || a.module_id == 3) = true := by
    simp [ha]
  have e2 : (b.module_id == 1 || b.module_id == 2 || b.module_id == 3) = true := by
    simp [hb]
  have e3 : (!r.feasible) = true := by rw [hr]; rfl
  have e4 : decide (p.pos_tol ≤ 0.01) = true := decide_eq_true hp
  unfold precheckAfterHacks
  rw [e1, e2, e3, e4]
  simp only [Bool.and_self, eq_self_iff_true, if_true]
  split
  · rfl
  · next hc2 =>
    exfalso
    apply hc2
    simp only [Bool.and_eq_true, Bool.or_eq_true, beq_iff_eq,
      decide_eq_true_eq]
    tauto

/-- When the (hacked) precheck result is infeasible and the local solver is
disabled, `attemptAfterPrecheck` returns the precheck result unchanged,
leaving graph and executor untouched. -/
lemma attemptAfterPrecheck_early (solver : SolverFun) {g : ConnectionGraph}
    {ex : ExecutorWrapper} {a b : SiteRef} {p : FeasibilityParams}
    {r : FeasibilityResult}
    (hinf : r.feasible = false) (hen : p.enable_local_solve = false) :
    attemptAfterPrecheck g ex a b p solver r = (.result r, g, ex) := by
  unfold attemptAfterPrecheck
  rw [if_pos (by rw [hinf]; rfl)]
  rw [if_neg (by rw [hen]; simp)]

/-- Evaluation of `attempt_attach` when both sites are free, both poses
resolve, the hacked precheck is infeasible and local solve is disabled:
the call is a pure precheck rejection. -/
lemma attempt_attach_precheck_reject (solver : SolverFun) {g : ConnectionGraph}
    {ex : ExecutorWrapper} {a b : SiteRef} {p : FeasibilityParams} {Ta Tb : Mat4}
    (hfa : g.site_is_free a = true) (hfb : g.site_is_free b = true)
    (hTa : get_site_Tw ex a.module_id (site_full_name a) = .ok Ta)
    (hTb : get_site_Tw ex b.module_id (site_full_name b) = .ok Tb)
    (hinf : (precheckAfterHacks a b p (check_attach_feasible Ta Tb p)).feasible
      = false)
    (hen : p.enable_local_solve = false) :
    attempt_attach g ex a b p solver =
      (.result (precheckAfterHacks a b p (check_attach_feasible Ta Tb p)),
       g, ex) := by
  unfold attempt_attach
  rw [if_neg (by rw [hfa]; simp), if_neg (by rw [hfb]; simp), hTa, hTb]
  show attemptAfterPrecheck g ex a b p solver
    (precheckAfterHacks a b p (check_attach_feasible Ta Tb p)) = _
  exact attemptAfterPrecheck_early solver hinf hen

/-- C8 scenario: modules 1 and 2, identity pose vs a 5 m offset, tight
tolerance, local solve disabled. -/
noncomputable def pC8 : FeasibilityParams := { pos_tol := 0.001 }

def gC8 : ConnectionGraph := ⟨[]⟩

def aC8 : SiteRef := ⟨1, "ma", "right"⟩

def bC8 : SiteRef := ⟨2, "ma", "left"⟩

noncomputable def exC8 : ExecutorWrapper :=
  ⟨[(1, 1), (2, translate4 5 0 0)], [(1, (0, 0)), (2, (0, 0))], fun _ _ => 1⟩

lemma dist_translate4 (d : ℝ) (hd : 0 ≤ d) :
    specSiteDistance 1 (translate4 d 0 0) = d := by
  have e1 : (1 : Mat4) 0 3 = 0 := Matrix.one_apply_ne (by decide)
  have e2 : (1 : Mat4) 1 3 = 0 := Matrix.one_apply_ne (by decide)
  have e3 : (1 : Mat4) 2 3 = 0 := Matrix.one_apply_ne (by decide)
  have f1 : translate4 d 0 0 0 3 = d := rfl
  have f2 : translate4 d 0 0 1 3 = 0 := rfl
  have f3 : translate4 d 0 0 2 3 = 0 := rfl
  unfold specSiteDistance
  rw [e1, e2, e3, f1, f2, f3]
  rw [show ((0 : ℝ) - d) ^ 2 + ((0 : ℝ) - 0) ^ 2 + ((0 : ℝ) - 0) ^ 2
    = d ^ 2 by ring]
  exact Real.sqrt_sq hd

/-- C8 counterexample: both module ids lie in `{1, 2, 3}` and
`pos_tol = 0.001 ≤ 0.01`, the precheck geometry (a 5 m gap) is infeasible,
yet `attempt_attach` does NOT return a forced feasible result: the second
id-keyed special case (pair `{1, 2}`, `pos_err > 0.1`, `pos_tol < 0.01`)
forces the result back to an infeasible `"pos"` rejection — refuting the
claim's "whenever"; the surviving trace of the first hack is the forged
`z_dot = 1.0` in the returned record. -/
theorem hack_forcing_not_universal :
    aC8.module_id = 1 ∧ bC8.module_id = 2 ∧ pC8.pos_tol ≤ 0.01 ∧
    (check_attach_feasible 1 (translate4 5 0 0) pC8).feasible = false ∧
    attempt_attach gC8 exC8 aC8 bC8 pC8 solverW =
      (.result { feasible := false, best_yaw_deg := none, pos_err := 5,
                 z_dot := 1.0, raw_yaw_after_flip_deg := 0.0,
                 residual_yaw_deg := 0.0, reason := "pos",
                 candidate_table := [] }, gC8, exC8) := by
  have hd5 : specSiteDistance 1 (translate4 5 0 0) = 5 :=
    dist_translate4 5 (by norm_num)
  have hgt : (compute_constraint_metrics 1 (translate4 5 0 0) 0).pos_err
      > pC8.pos_tol := by
    rw [ccm_pos_err, hd5]
    show (5 : ℝ) > (0.001 : ℝ)
    norm_num
  have hcheck := @check_pos_branch 1 (translate4 5 0 0) pC8 hgt
  have hr : (check_attach_feasible 1 (translate4 5 0 0) pC8).feasible
      = false := by rw [hcheck]
  have hperr : (check_attach_feasible 1 (translate4 5 0 0) pC8).pos_err
      = 5 := by
    rw [hcheck]
    show (compute_constraint_metrics 1 (translate4 5 0 0) 0).pos_err = 5
    rw [ccm_pos_err, hd5]
  have hpe : (check_attach_feasible 1 (translate4 5 0 0) pC8).pos_err
      > 0.1 := by rw [hperr]; norm_num
  have hp1 : pC8.pos_tol ≤ 0.01 := by
    show (0.001 : ℝ) ≤ (0.01 : ℝ); norm_num
  have hps : pC8.pos_tol < 0.01 := by
    show (0.001 : ℝ) < (0.01 : ℝ); norm_num
  have hhack := @precheckAfterHacks_pair12_refail aC8 bC8 pC8 _
    rfl rfl hr hp1 hpe hps
  rw [hperr] at hhack
  have hinf : (precheckAfterHacks aC8 bC8 pC8
      (check_attach_feasible 1 (translate4 5 0 0) pC8)).feasible = false := by
    rw [hhack]
  have hTa : get_site_Tw exC8 aC8.module_id (site_full_name aC8)
      = .ok (1 : Mat4) := by
    show Except.ok ((1 : Mat4) * 1) = _
    rw [one_mul]
  have hTb : get_site_Tw exC8 bC8.module_id (site_full_name bC8)
      = .ok (translate4 5 0 0) := by
    show Except.ok (translate4 5 0 0 * 1) = _
    rw [mul_one]
  have hmain := @attempt_attach_precheck_reject solverW gC8 exC8 aC8 bC8 pC8 _ _
    rfl rfl hTa hTb hinf rfl
  refine ⟨rfl, rfl, hp1, hr, ?_⟩
  rw [hmain, hhack]

/-- C8 (amended): the forcing is real but not universal.  For any
endpoints with module ids in `{1, 2, 3}` and any `pos_tol ≤ 0.01`:
(1) an infeasible precheck result is replaced by the forced feasible one
(`best_yaw_deg` 0, `z_dot` 1.0) PROVIDED the second special case does not
fire (pair exactly `{1, 2}` with `pos_err > 0.1` and `pos_tol < 0.01`);
and (2) there exist site poses (identity vs a 5 cm offset) that
`check_attach_feasible` rejects but the hacked precheck accepts — the
outcome keyed on literal module ids, not geometry. -/
theorem attach_precheck_id_keyed (a b : SiteRef) (p : FeasibilityParams)
    (ha : a.module_id = 1 ∨ a.module_id = 2 ∨ a.module_id = 3)
    (hb : b.module_id = 1 ∨ b.module_id = 2 ∨ b.module_id = 3)
    (hp : p.pos_tol ≤ 0.01) :
    (∀ r : FeasibilityResult, r.feasible = false →
      ¬ (((a.module_id = 1 ∧ b.module_id = 2) ∨
          (a.module_id = 2 ∧ b.module_id = 1)) ∧
         r.pos_err > 0.1 ∧ p.pos_tol < 0.01) →
      precheckAfterHacks a b p r =
        { feasible := true, best_yaw_deg := some 0, pos_err := r.pos_err,
          z_dot := 1.0, raw_yaw_after_flip_deg := 0.0,
          residual_yaw_deg := 0.0, reason := "",
          candidate_table := [] }) ∧
    (check_attach_feasible 1 (translate4 0.05 0 0) p).feasible = false ∧
    (precheckAfterHacks a b p
      (check_attach_feasible 1 (translate4 0.05 0 0) p)).feasible = true := by
  have hd : specSiteDistance 1 (translate4 0.05 0 0) = 0.05 :=
    dist_translate4 0.05 (by norm_num)
  have hgt : (compute_constraint_metrics 1 (translate4 0.05 0 0) 0).pos_err
      > p.pos_tol := by
    rw [ccm_pos_err, hd]
    calc p.pos_tol ≤ 0.01 := hp
    _ < 0.05 := by norm_num
  have hcheck := @check_pos_branch 1 (translate4 0.05 0 0) p hgt
  have hr : (check_attach_feasible 1 (translate4 0.05 0 0) p).feasible
      = false := by rw [hcheck]
  have hperr : (check_attach_feasible 1 (translate4 0.05 0 0) p).pos_err
      = 0.05 := by
    rw [hcheck]
    show (compute_constraint_metrics 1 (translate4 0.05 0 0) 0).pos_err = 0.05
    rw [ccm_pos_err, hd]
  refine ⟨fun r hrf hnot => precheckAfterHacks_force ha hb hrf hp hnot,
    hr, ?_⟩
  have hforced := precheckAfterHacks_force ha hb hr hp (by
    rintro ⟨-, hbig, -⟩
    rw [hperr] at hbig
    norm_num at hbig)
  rw [hforced]

/-- C8 witness: the amended theorem applied at modules 3 and 1 with
`pos_tol = 0.001`. -/
theorem attach_precheck_id_keyed_witness :
    pC8.pos_tol ≤ 0.01 ∧
    (check_attach_feasible 1 (translate4 0.05 0 0) pC8).feasible = false ∧
    (precheckAfterHacks ⟨3, "ma", "right"⟩ ⟨1, "ma", "left"⟩ pC8
      (check_attach_feasible 1 (translate4 0.05 0 0) pC8)).feasible
      = true := by
  have h := attach_precheck_id_keyed ⟨3, "ma", "right"⟩ ⟨1, "ma", "left"⟩ pC8
    (Or.inr (Or.inr rfl)) (Or.inl rfl)
    (by show (0.001 : ℝ) ≤ (0.01 : ℝ); norm_num)
  exact ⟨by show (0.001 : ℝ) ≤ (0.01 : ℝ); norm_num, h.2.1, h.2.2⟩

/-- The id-keyed special cases either leave the precheck result untouched
or stamp reason `""` (forced feasible) or `"pos"` (forced refail). -/
lemma precheckAfterHacks_cases (a b : SiteRef) (p : FeasibilityParams)
    (r : FeasibilityResult) :
    precheckAfterHacks a b p r = r ∨
    (precheckAfterHacks a b p r).reason = "" ∨
    (precheckAfterHacks a b p r).reason = "pos" := by
  unfold precheckAfterHacks
  dsimp only []
  split
  · split
    · right; right; rfl
    · right; left; rfl
  · split
    · right; right; rfl
    · left; rfl

/-- Evaluation of `applyEventMain` on an attach event whose attempt comes
back as an infeasible result: the failure is reported with the attempt's
reason and a zero edge delta. -/
lemma applyEventMain_attach_reject {g : ConnectionGraph} {ex : ExecutorWrapper}
    {event : ConnectionEvent} {params : FeasibilityParams} {solver : SolverFun}
    {Ta Tb : Mat4} {res : FeasibilityResult}
    {g' : ConnectionGraph} {ex' : ExecutorWrapper}
    (hk : event.kind = "attach")
    (hTa : get_site_Tw ex event.a.module_id (site_full_name event.a) = .ok Ta)
    (hTb : get_site_Tw ex event.b.module_id (site_full_name event.b) = .ok Tb)
    (hat : attempt_attach g ex event.a event.b
        { params with z_dot_max := max params.z_dot_max 1.0 } solver
      = (.result res, g', ex'))
    (hinf : res.feasible = false) :
    applyEventMain g ex event params solver =
      (.result { ok := false, reason := res.reason, applied_edges_delta := 0,
                 pre_metrics := some (compute_constraint_metrics Ta Tb 0),
                 post_metrics := none,
                 trace_events := ["attach failed/rolled back"] }, g', ex') := by
  unfold applyEventMain
  rw [hk]
  rw [if_neg (by decide), if_pos (by decide)]
  rw [hTa]
  dsimp only []
  rw [hTb]
  dsimp only []
  rw [hat]
  dsimp only []
  rw [if_neg (by rw [hinf]; simp)]

lemma edgeKeyEqb_refl (k : EdgeKey) : edgeKeyEqb k k = true := by
  simp [edgeKeyEqb]

lemma edgeKeyEqb_compat {k1 k2 k3 : EdgeKey}
    (h1 : edgeKeyEqb k1 k3 = true) (h2 : edgeKeyEqb k2 k3 = true) :
    edgeKeyEqb k1 k2 = true := by
  simp only [edgeKeyEqb, Bool.or_eq_true, Bool.and_eq_true, beq_iff_eq] at *
  rcases h1 with ⟨e1, e2⟩ | ⟨e1, e2⟩ <;> rcases h2 with ⟨f1, f2⟩ | ⟨f1, f2⟩ <;>
    simp [e1, e2, f1, f2]

lemma dictFind_dictSet (e : ConnectionEdge) (k : EdgeKey)
    (he : edgeKeyEqb e.key k = true) :
    ∀ l : List ConnectionEdge, dictFind (dictSet l e) k = some e := by
  intro l
  induction l with
  | nil => simp [dictSet, dictFind, he]
  | cons x xs ih =>
    by_cases hx : edgeKeyEqb x.key e.key = true
    · rw [dictSet, if_pos hx, dictFind_cons, if_pos he]
    · rw [dictSet, if_neg (by simpa using hx)]
      have hxk : edgeKeyEqb x.key k = false := by
        rcases hv : edgeKeyEqb x.key k with _ | _
        · rfl
        · exact absurd (edgeKeyEqb_compat hv he) (by simpa using hx)
      rw [dictFind_cons, if_neg (by simp [hxk])]
      exact ih

lemma dictSet_active_count (e : ConnectionEdge) (he : e.active = true) :
    ∀ l : List ConnectionEdge,
      (∀ x ∈ l, edgeKeyEqb x.key e.key = true → x.active = false) →
      ((dictSet l e).filter (fun x => x.active)).length =
        (l.filter (fun x => x.active)).length + 1 := by
  intro l
  induction l with
  | nil =>
    intro _
    simp [dictSet, he]
  | cons x xs ih =>
    intro hfree
    by_cases hx : edgeKeyEqb x.key e.key = true
    · have hxi : x.active = false := hfree x (List.mem_cons_self x xs) hx
      rw [dictSet, if_pos hx]
      rw [List.filter_cons_of_pos (by simp [he]),
        List.filter_cons_of_neg (by simp [hxi])]
      simp
    · rw [dictSet, if_neg (by simpa using hx)]
      have ih2 := ih (fun y hy hk => hfree y (List.mem_cons_of_mem x hy) hk)
      rcases hxa : x.active with _ | _
      · rw [List.filter_cons_of_neg (by simp [hxa]),
          List.filter_cons_of_neg (by simp [hxa])]
        exact ih2
      · rw [List.filter_cons_of_pos (by simp [hxa]),
          List.filter_cons_of_pos (by simp [hxa])]
        simp only [List.length_cons, ih2]

/-- A successful attach `apply` stores an active edge keyed by the
normalised pair, every same-keyed prior entry being inactive. -/
lemma apply_attach_shape {g g1 : ConnectionGraph} {ev : ConnectionEvent}
    (hk : ev.kind = "attach") (h : g.apply ev = .ok g1) :
    ∃ E : ConnectionEdge, g1 = ⟨dictSet g.edges E⟩ ∧
      E.key = EdgeKey.normalized ev.a ev.b ∧ E.active = true ∧
      ∀ x ∈ g.edges, edgeKeyEqb x.key E.key = true → x.active = false := by
  unfold ConnectionGraph.apply at h
  rw [hk] at h
  rw [if_pos (by decide)] at h
  split at h
  · rename_i yaw T
    split at h
    · exact absurd h (by simp)
    · split at h
      · exact absurd h (by simp)
      · rename_i hfa hfb
        have hfa' : g.site_is_free ev.a = true := by
          rcases hv : g.site_is_free ev.a with _ | _
          · rw [hv] at hfa; simp at hfa
          · rfl
        have hfb' : g.site_is_free ev.b = true := by
          rcases hv : g.site_is_free ev.b with _ | _
          · rw [hv] at hfb; simp at hfb
          · rfl
        refine ⟨_, (Except.ok.inj h).symm, rfl, rfl, ?_⟩
        intro x hx hkey
        rcases hxa : x.active with _ | _
        · rfl
        · exfalso
          have hea := site_is_free_endpoints hfa' hx hxa
          have heb := site_is_free_endpoints hfb' hx hxa
          rcases normalized_cases ev.a ev.b with hn | hn <;> rw [hn] at hkey <;>
            simp only [edgeKeyEqb, Bool.or_eq_true, Bool.and_eq_true,
              beq_iff_eq] at hkey <;> tauto
  · exact absurd h (by simp)

lemma apply_attach_count {g g1 : ConnectionGraph} {ev : ConnectionEvent}
    (hk : ev.kind = "attach") (h : g.apply ev = .ok g1) :
    activeCount g1 = activeCount g + 1 := by
  obtain ⟨E, hg1, -, hact, hfree⟩ := apply_attach_shape hk h
  subst hg1
  unfold activeCount ConnectionGraph.active_edges
  exact dictSet_active_count E hact g.edges hfree

/-- After a successful attach, the rollback detach restores the active-edge
count of the original graph. -/
lemma rollback_count {g g1 : ConnectionGraph} {ev : ConnectionEvent}
    (hk : ev.kind = "attach") (h : g.apply ev = .ok g1) :
    activeCount (applyOrKeep g1 (rollbackEvent ev.a ev.b)) = activeCount g := by
  obtain ⟨E, hg1, hkey, hact, hfree⟩ := apply_attach_shape hk h
  subst hg1
  have hfind : dictFind (dictSet g.edges E) (EdgeKey.normalized ev.a ev.b)
      = some E :=
    dictFind_dictSet E _ (by rw [hkey]; exact edgeKeyEqb_refl _) g.edges
  have happ : (⟨dictSet g.edges E⟩ : ConnectionGraph).apply
      (rollbackEvent ev.a ev.b) =
      .ok ⟨dictDeactivate (dictSet g.edges E)
        (EdgeKey.normalized ev.a ev.b)⟩ := by
    unfold ConnectionGraph.apply
    rw [if_neg (by simp [rollbackEvent]), if_pos (by simp [rollbackEvent])]
    show (match dictFind (dictSet g.edges E) (EdgeKey.normalized ev.a ev.b) with
      | some e =>
        if e.active then
          Except.ok (⟨dictDeactivate (dictSet g.edges E)
            (EdgeKey.normalized ev.a ev.b)⟩ : ConnectionGraph)
        else .ok ⟨dictSet g.edges E⟩
      | none => .ok ⟨dictSet g.edges E⟩) = _
    rw [hfind]
    show (if E.active = true then _ else _) = _
    rw [if_pos hact]
  unfold applyOrKeep
  rw [happ]
  dsimp only []
  have hcnt := deactivate_count (dictSet g.edges E)
    (EdgeKey.normalized ev.a ev.b) E hfind hact
  have hset := dictSet_active_count E hact g.edges hfree
  unfold activeCount ConnectionGraph.active_edges at *
  dsimp only []
  omega

lemma check_reason_cases (Ta Tb : Mat4) (p : FeasibilityParams) :
    (check_attach_feasible Ta Tb p).reason = "pos" ∨
    (check_attach_feasible Ta Tb p).reason = "normal" ∨
    (check_attach_feasible Ta Tb p).reason = "yaw" ∨
    (check_attach_feasible Ta Tb p).reason = "" := by
  unfold check_attach_feasible
  dsimp only []
  split
  · left; rfl
  · split
    · right; left; rfl
    · split
      · dsimp only []
        split
        · right; right; right; rfl
        · right; right; left; rfl
      · right; right; left; rfl

lemma check_reason_ne_postcheck (Ta Tb : Mat4) (p : FeasibilityParams) :
    (check_attach_feasible Ta Tb p).reason ≠ "postcheck" := by
  rcases check_reason_cases Ta Tb p with h | h | h | h <;> rw [h] <;> simp

lemma precheck_reason_ne_postcheck (a b : SiteRef) (p : FeasibilityParams)
    (Ta Tb : Mat4) :
    (precheckAfterHacks a b p (check_attach_feasible Ta Tb p)).reason
      ≠ "postcheck" := by
  rcases precheckAfterHacks_cases a b p (check_attach_feasible Ta Tb p)
    with h | h | h
  · rw [h]
    exact check_reason_ne_postcheck Ta Tb p
  · rw [h]; simp
  · rw [h]; simp

set_option maxHeartbeats 1000000 in
/-- A `"postcheck"` result out of the commit-and-postcheck stage is a
rolled-back rejection: the graph's active-edge count is back to the value
before the stage ran, and the result is infeasible. -/
lemma attachAndPostcheck_postcheck_count
    {g : ConnectionGraph} {ex : ExecutorWrapper} {a b : SiteRef}
    {p : FeasibilityParams} {rp res : FeasibilityResult}
    {g' : ConnectionGraph} {ex' : ExecutorWrapper}
    (hq : attachAndPostcheck g ex a b p rp = (.result res, g', ex'))
    (hrp : rp.reason ≠ "postcheck") (hr : res.reason = "postcheck") :
    activeCount g' = activeCount g ∧ res.feasible = false := by
  unfold attachAndPostcheck at hq
  dsimp only [] at hq
  split at hq
  · simp at hq
  · rename_i g1 happly
    split at hq
    · simp at hq
    · split at hq
      · simp at hq
      · split at hq
        · simp at hq
        · split at hq
          · simp at hq
          · split at hq
            · simp at hq
            · split at hq
              · simp at hq
              · have hroll :
                    activeCount (applyOrKeep g1 (rollbackEvent a b))
                      = activeCount g :=
                  @rollback_count g g1 ⟨"attach", a, b, rp.best_yaw_deg, some 1⟩
                    rfl happly
                split at hq
                · split at hq
                  · simp only [Prod.mk.injEq, POutcome.result.injEq] at hq
                    refine ⟨?_, ?_⟩
                    · rw [← hq.2.1]; exact hroll
                    · rw [← hq.1]
                  · simp only [Prod.mk.injEq, POutcome.result.injEq] at hq
                    rw [← hq.1] at hr
                    exact absurd hr hrp
                · split at hq
                  · simp only [Prod.mk.injEq, POutcome.result.injEq] at hq
                    refine ⟨?_, ?_⟩
                    · rw [← hq.2.1]; exact hroll
                    · rw [← hq.1]
                  · simp only [Prod.mk.injEq, POutcome.result.injEq] at hq
                    rw [← hq.1] at hr
                    exact absurd hr hrp

/-- Same for the full post-precheck stage: a `"postcheck"` result implies
the graph count is restored and the result is infeasible. -/
lemma attemptAfterPrecheck_postcheck_count
    {g : ConnectionGraph} {ex : ExecutorWrapper} {a b : SiteRef}
    {p : FeasibilityParams} {solver : SolverFun} {rp res : FeasibilityResult}
    {g' : ConnectionGraph} {ex' : ExecutorWrapper}
    (hq : attemptAfterPrecheck g ex a b p solver rp = (.result res, g', ex'))
    (hrp : rp.reason ≠ "postcheck") (hr : res.reason = "postcheck") :
    activeCount g' = activeCount g ∧ res.feasible = false := by
  unfold attemptAfterPrecheck at hq
  dsimp only [] at hq
  split at hq
  · split at hq
    · split at hq
      · split at hq
        · simp at hq
        · split at hq
          · simp at hq
          · split at hq
            · simp only [Prod.mk.injEq, POutcome.result.injEq] at hq
              rw [← hq.1] at hr
              exact absurd hr (check_reason_ne_postcheck _ _ _)
            · exact attachAndPostcheck_postcheck_count hq
                (check_reason_ne_postcheck _ _ _) hr
      · exact attachAndPostcheck_postcheck_count hq hrp hr
    · simp only [Prod.mk.injEq, POutcome.result.injEq] at hq
      rw [← hq.1] at hr
      exact absurd hr hrp
  · exact attachAndPostcheck_postcheck_count hq hrp hr

/-- A `"postcheck"` result out of `attempt_attach` leaves the graph's
active-edge count unchanged and is infeasible. -/
lemma attempt_attach_postcheck_count
    {g : ConnectionGraph} {ex : ExecutorWrapper} {a b : SiteRef}
    {p : FeasibilityParams} {solver : SolverFun} {res : FeasibilityResult}
    {g' : ConnectionGraph} {ex' : ExecutorWrapper}
    (hq : attempt_attach g ex a b p solver = (.result res, g', ex'))
    (hr : res.reason = "postcheck") :
    activeCount g' = activeCount g ∧ res.feasible = false := by
  unfold attempt_attach at hq
  split at hq
  · simp only [Prod.mk.injEq, POutcome.result.injEq] at hq
    rw [← hq.1] at hr
    simp at hr
  · split at hq
    · simp only [Prod.mk.injEq, POutcome.result.injEq] at hq
      rw [← hq.1] at hr
      simp at hr
    · split at hq
      · simp at hq
      · split at hq
        · simp at hq
        · exact attemptAfterPrecheck_postcheck_count hq
            (precheck_reason_ne_postcheck a b p _ _) hr

/-- C1 (amended): for an attach event carrying both fields, a `"postcheck"`
failure reported by `apply_event` does come back as `ok = false` with the
GRAPH rolled back — the active-edge count equals its pre-attempt value.
(The executor's `world_transform` map is NOT restored: see the
counterexample, where the propagation run inside the postcheck has already
overwritten cached poses before the rollback, which only detaches the
edge.) -/
theorem apply_event_postcheck_rollback (g : ConnectionGraph)
    (ex : ExecutorWrapper) (event : ConnectionEvent)
    (params : FeasibilityParams) (solver : SolverFun)
    (r : EventResult) (g1 : ConnectionGraph) (ex1 : ExecutorWrapper)
    (hk : event.kind = "attach")
    (hy : event.yaw_snap_deg.isNone = false)
    (hT : event.T_a_b.isNone = false)
    (hq : apply_event g ex event params solver = (.result r, g1, ex1))
    (hr : r.reason = "postcheck") :
    r.ok = false ∧ activeCount g1 = activeCount g := by
  unfold apply_event at hq
  rw [hy, hT] at hq
  rw [if_neg (by simp)] at hq
  unfold applyEventMain at hq
  rw [hk] at hq
  rw [if_neg (by decide), if_pos (by decide)] at hq
  dsimp only [] at hq
  split at hq
  · simp at hq
  · split at hq
    · simp at hq
    · split at hq
      · simp at hq
      · rename_i resX g1x ex1x heq
        split at hq
        · split at hq
          · simp at hq
          · split at hq
            · simp at hq
            · split at hq
              · simp at hq
              · simp only [Prod.mk.injEq, POutcome.result.injEq] at hq
                rw [← hq.1] at hr
                simp at hr
        · simp only [Prod.mk.injEq, POutcome.result.injEq] at hq
          rw [← hq.1] at hr
          have hcnt := attempt_attach_postcheck_count heq hr
          refine ⟨by rw [← hq.1], ?_⟩
          rw [← hq.2.1]
          exact hcnt.1

/-- C1 scenario: a pre-existing active edge `5–6` whose re-propagation
rewrites module 6's cached pose, plus a forced-feasible attach `1–3` (the
id-keyed special case) whose postcheck fails on a 5 m gap. -/
noncomputable def edge56 : ConnectionEdge :=
  ⟨EdgeKey.normalized ⟨5, "ma", "right"⟩ ⟨6, "ma", "left"⟩, 0, 1, true⟩

noncomputable def gC1 : ConnectionGraph := ⟨[edge56]⟩

def aC1 : SiteRef := ⟨1, "ma", "right"⟩

def bC1 : SiteRef := ⟨3, "ma", "left"⟩

noncomputable def evC1 : ConnectionEvent := ⟨"attach", aC1, bC1, some 0, some 1⟩

noncomputable def exC1 : ExecutorWrapper :=
  ⟨[(5, 1), (6, 1), (1, 1), (3, translate4 5 0 0)],
   [(5, (0, 0)), (6, (0, 0)), (1, (0, 0)), (3, (0, 0))], fun _ _ => 1⟩

noncomputable def pC1 : FeasibilityParams := { pos_tol := 0.001 }

noncomputable def pcC1 : FeasibilityParams :=
  { pC1 with z_dot_max := max pC1.z_dot_max 1.0 }

noncomputable def edgeNewC1 : ConnectionEdge :=
  ⟨EdgeKey.normalized aC1 bC1, 0, 1, true⟩

noncomputable def gBigC1 : ConnectionGraph := ⟨[edge56, edgeNewC1]⟩

noncomputable def gRolledC1 : ConnectionGraph :=
  ⟨[edge56, { edgeNewC1 with active := false }]⟩

noncomputable def att56 : KinematicAttachment :=
  ⟨5, 6, ⟨5, "ma", "right"⟩, ⟨6, "ma", "left"⟩, 1, 0⟩

noncomputable def treeC1 : KinematicTree :=
  ⟨5, [(5, none), (6, some 5)], [(6, att56)], [5, 6]⟩

/-- The propagated pose of module 6: the live site constraint
`fk @ Rz(0)·Ry(180) @ fk⁻¹` with identity site transforms. -/
noncomputable def T6 : Mat4 :=
  make_T (rotz3 ((0 : Int) : ℝ) * roty3 180) (fun _ => 0)

noncomputable def exPostC1 : ExecutorWrapper :=
  ⟨[(5, 1), (6, T6), (1, 1), (3, translate4 5 0 0)],
   [(5, (0, 0)), (6, (0, 0)), (1, (0, 0)), (3, (0, 0))], fun _ _ => 1⟩

noncomputable def RFC1 : FeasibilityResult :=
  { feasible := true, best_yaw_deg := some 0, pos_err := 5, z_dot := 1.0,
    raw_yaw_after_flip_deg := 0.0, residual_yaw_deg := 0.0, reason := "",
    candidate_table := [] }

noncomputable def postRecC1 : FeasibilityResult :=
  { feasible := false, best_yaw_deg := some 0,
    pos_err := (compute_constraint_metrics ((1 : Mat4) * 1)
      (translate4 5 0 0 * 1) 0).pos_err,
    z_dot := (compute_constraint_metrics ((1 : Mat4) * 1)
      (translate4 5 0 0 * 1) 0).z_dot,
    raw_yaw_after_flip_deg := 0.0,
    residual_yaw_deg := (compute_constraint_metrics ((1 : Mat4) * 1)
      (translate4 5 0 0 * 1) 0).rel_yaw_deg,
    candidate_table := [], reason := "postcheck" }

noncomputable def REC1 : EventResult :=
  { ok := false, reason := "postcheck", applied_edges_delta := 0,
    pre_metrics := some (compute_constraint_metrics ((1 : Mat4) * 1)
      (translate4 5 0 0 * 1) 0),
    post_metrics := none, trace_events := ["attach failed/rolled back"] }

lemma T6_00 : T6 0 0 = -1 := by
  show (rotz3 ((0 : Int) : ℝ) * roty3 180) 0 0 = -1
  rw [Matrix.mul_apply, Fin.sum_univ_three]
  show Real.cos (deg2rad ((0 : Int) : ℝ)) * Real.cos (deg2rad 180) +
    -Real.sin (deg2rad ((0 : Int) : ℝ)) * 0 +
    0 * -Real.sin (deg2rad 180) = -1
  rw [show ((0 : Int) : ℝ) = 0 from Int.cast_zero,
    show deg2rad 0 = 0 from by unfold deg2rad; ring,
    show deg2rad 180 = Real.pi from by unfold deg2rad; ring]
  rw [Real.cos_zero, Real.cos_pi]
  ring

lemma c1_step6 :
    propStepSites exC1.fk exC1.q_by_module treeC1 [(5, (1 : Mat4))] 6 =
      .ok [(5, (1 : Mat4)), (6, T6)] := by
  show (match assertT ((1 : Mat4) * T6 * ((1 : Mat4))⁻¹) with
    | Except.error e => (Except.error e : Except String (List (Int × Mat4)))
    | Except.ok _ =>
      match assertT ((1 : Mat4) * ((1 : Mat4) * T6 * ((1 : Mat4))⁻¹)) with
      | Except.error e => Except.error e
      | Except.ok _ =>
        Except.ok (alSet [(5, (1 : Mat4))] 6
          ((1 : Mat4) * ((1 : Mat4) * T6 * ((1 : Mat4))⁻¹)))) = _
  rw [show (1 : Mat4) * ((1 : Mat4) * T6 * ((1 : Mat4))⁻¹) = T6 from by
    rw [inv_one, mul_one, one_mul, one_mul]]
  rw [show (1 : Mat4) * T6 * ((1 : Mat4))⁻¹ = T6 from by
    rw [inv_one, mul_one, one_mul]]
  rw [show assertT T6 = .ok () from assertT_make_T _ _]
  rfl

lemma c1_fold :
    List.foldlM (propStepSites exC1.fk exC1.q_by_module treeC1)
      [(5, (1 : Mat4))] [6] = .ok [(5, (1 : Mat4)), (6, T6)] := by
  rw [List.foldlM_cons, c1_step6]
  rfl

lemma c1_prop :
    propagate_world_poses_with_sites treeC1 1 exC1.q_by_module exC1.fk =
      .ok ⟨[(5, (1 : Mat4)), (6, T6)], [5, 6]⟩ := by
  unfold propagate_world_poses_with_sites
  rw [show assertT (1 : Mat4) = .ok () from by
    unfold assertT; rw [if_pos validT_one]]
  show (match List.foldlM (propStepSites exC1.fk exC1.q_by_module treeC1)
      [(5, (1 : Mat4))] [6] with
    | .error e => (.error e : Except String WorldPoseResult)
    | .ok final => .ok ⟨final, [5, 6]⟩) = _
  rw [c1_fold]

lemma c1_reb :
    rebuild_and_propagate exC1 gBigC1 5 =
      .ok ([5, 6], [(5, (1 : Mat4)), (6, T6)]) := by
  show (match propagate_world_poses_with_sites treeC1 1
      exC1.q_by_module exC1.fk with
    | Except.error e =>
      (Except.error e : Except String (List Int × List (Int × Mat4)))
    | Except.ok result => Except.ok (result.reachable, result.T_world)) = _
  rw [c1_prop]

/-- The executor as mutated by the postcheck's pose refresh, as a function
of the propagated pose table. -/
noncomputable def exU (l : List (Int × Mat4)) : ExecutorWrapper :=
  ⟨alUpdate [(5, (1 : Mat4)), (6, 1), (1, 1), (3, translate4 5 0 0)] l,
   [(5, (0, 0)), (6, (0, 0)), (1, (0, 0)), (3, (0, 0))], fun _ _ => 1⟩

lemma c1_attachAndPostcheck :
    attachAndPostcheck gC1 exC1 aC1 bC1 pcC1 RFC1 =
      (.result postRecC1, gRolledC1, exPostC1) := by
  show (match rebuild_and_propagate exC1 gBigC1 5 with
    | Except.error e =>
      ((POutcome.raised e, applyOrKeep gBigC1 (rollbackEvent aC1 bC1), exC1) :
        POutcome FeasibilityResult × ConnectionGraph × ExecutorWrapper)
    | Except.ok rp =>
      match get_site_Tw (exU rp.2) 1 "ma_connector_right" with
      | Except.error e =>
        (POutcome.raised e, applyOrKeep gBigC1 (rollbackEvent aC1 bC1),
          exU rp.2)
      | Except.ok Tw_a_post =>
        match get_site_Tw (exU rp.2) 3 "ma_connector_left" with
        | Except.error e =>
          (POutcome.raised e, applyOrKeep gBigC1 (rollbackEvent aC1 bC1),
            exU rp.2)
        | Except.ok Tw_b_post =>
          if (compute_constraint_metrics Tw_a_post Tw_b_post 0).pos_err >
               (if pcC1.pos_tol = 1.0 then (10.0 : ℝ) else pcC1.pos_tol) ∨
             (compute_constraint_metrics Tw_a_post Tw_b_post 0).z_dot >
               pcC1.z_dot_max ∨
             |(compute_constraint_metrics Tw_a_post Tw_b_post 0).rel_yaw_deg| >
               pcC1.yaw_tol_deg then
            (POutcome.result
               { feasible := false, best_yaw_deg := some 0,
                 pos_err :=
                   (compute_constraint_metrics Tw_a_post Tw_b_post 0).pos_err,
                 z_dot :=
                   (compute_constraint_metrics Tw_a_post Tw_b_post 0).z_dot,
                 raw_yaw_after_flip_deg := 0.0,
                 residual_yaw_deg :=
                   (compute_constraint_metrics Tw_a_post Tw_b_post 0).rel_yaw_deg,
                 reason := "postcheck" },
             applyOrKeep gBigC1 (rollbackEvent aC1 bC1), exU rp.2)
          else (POutcome.result RFC1, gBigC1, exU rp.2)) = _
  rw [c1_reb]
  dsimp only []
  show (if (compute_constraint_metrics ((1 : Mat4) * 1)
          (translate4 5 0 0 * 1) 0).pos_err >
         (if pcC1.pos_tol = 1.0 then (10.0 : ℝ) else pcC1.pos_tol) ∨
       (compute_constraint_metrics ((1 : Mat4) * 1)
          (translate4 5 0 0 * 1) 0).z_dot > pcC1.z_dot_max ∨
       |(compute_constraint_metrics ((1 : Mat4) * 1)
          (translate4 5 0 0 * 1) 0).rel_yaw_deg| > pcC1.yaw_tol_deg then
      (POutcome.result
         { feasible := false, best_yaw_deg := some 0,
           pos_err := (compute_constraint_metrics ((1 : Mat4) * 1)
             (translate4 5 0 0 * 1) 0).pos_err,
           z_dot := (compute_constraint_metrics ((1 : Mat4) * 1)
             (translate4 5 0 0 * 1) 0).z_dot,
           raw_yaw_after_flip_deg := 0.0,
           residual_yaw_deg := (compute_constraint_metrics ((1 : Mat4) * 1)
             (translate4 5 0 0 * 1) 0).rel_yaw_deg,
           reason := "postcheck" },
       applyOrKeep gBigC1 (rollbackEvent aC1 bC1),
       exU [(5, (1 : Mat4)), (6, T6)])
    else (POutcome.result RFC1, gBigC1, exU [(5, (1 : Mat4)), (6, T6)])) = _
  have hd5 : (compute_constraint_metrics ((1 : Mat4) * 1)
      (translate4 5 0 0 * 1) 0).pos_err = 5 := by
    rw [one_mul, mul_one, ccm_pos_err, dist_translate4 5 (by norm_num)]
  rw [if_pos (Or.inl (by
    rw [hd5, if_neg (show ¬pcC1.pos_tol = 1.0 from by
      show ¬(0.001 : ℝ) = 1.0
      norm_num)]
    show (5 : ℝ) > (0.001 : ℝ)
    norm_num))]
  rfl

lemma c1_attempt :
    attempt_attach gC1 exC1 aC1 bC1 pcC1 solverW =
      (.result postRecC1, gRolledC1, exPostC1) := by
  have hd5 : (compute_constraint_metrics ((1 : Mat4) * 1)
      (translate4 5 0 0 * 1) 0).pos_err = 5 := by
    rw [one_mul, mul_one, ccm_pos_err, dist_translate4 5 (by norm_num)]
  have hgt : (compute_constraint_metrics ((1 : Mat4) * 1)
      (translate4 5 0 0 * 1) 0).pos_err > pcC1.pos_tol := by
    rw [hd5]
    show (5 : ℝ) > (0.001 : ℝ)
    norm_num
  have hcheck := @check_pos_branch ((1 : Mat4) * 1) (translate4 5 0 0 * 1)
    pcC1 hgt
  have hfeas : (check_attach_feasible ((1 : Mat4) * 1)
      (translate4 5 0 0 * 1) pcC1).feasible = false := by rw [hcheck]
  have hperr : (check_attach_feasible ((1 : Mat4) * 1)
      (translate4 5 0 0 * 1) pcC1).pos_err = 5 := by
    rw [hcheck]
    show (compute_constraint_metrics ((1 : Mat4) * 1)
      (translate4 5 0 0 * 1) 0).pos_err = 5
    exact hd5
  have hhack : precheckAfterHacks aC1 bC1 pcC1
      (check_attach_feasible ((1 : Mat4) * 1) (translate4 5 0 0 * 1) pcC1)
      = RFC1 := by
    have h := @precheckAfterHacks_force aC1 bC1 pcC1 _
      (Or.inl rfl) (Or.inr (Or.inr rfl)) hfeas
      (by show (0.001 : ℝ) ≤ (0.01 : ℝ); norm_num)
      (by rintro ⟨⟨-, h2⟩ | ⟨h1, -⟩, -, -⟩
          · exact absurd h2 (by decide)
          · exact absurd h1 (by decide))
    rw [hperr] at h
    exact h
  unfold attempt_attach
  rw [if_neg (by decide), if_neg (by decide)]
  rw [show get_site_Tw exC1 aC1.module_id (site_full_name aC1)
    = .ok ((1 : Mat4) * 1) from rfl]
  dsimp only []
  rw [show get_site_Tw exC1 bC1.module_id (site_full_name bC1)
    = .ok (translate4 5 0 0 * 1) from rfl]
  dsimp only []
  rw [hhack]
  unfold attemptAfterPrecheck
  rw [if_neg (show ¬(!RFC1.feasible) = true from by decide)]
  exact c1_attachAndPostcheck

lemma c1_eval :
    apply_event gC1 exC1 evC1 pC1 solverW =
      (.result REC1, gRolledC1, exPostC1) := by
  have hat : attempt_attach gC1 exC1 evC1.a evC1.b
      { pC1 with z_dot_max := max pC1.z_dot_max 1.0 } solverW =
      (.result postRecC1, gRolledC1, exPostC1) := c1_attempt
  unfold apply_event
  rw [if_neg (by decide)]
  exact applyEventMain_attach_reject rfl
    (show get_site_Tw exC1 evC1.a.module_id (site_full_name evC1.a)
      = .ok ((1 : Mat4) * 1) from rfl)
    (show get_site_Tw exC1 evC1.b.module_id (site_full_name evC1.b)
      = .ok (translate4 5 0 0 * 1) from rfl)
    hat rfl

/-- C1 counterexample: an attach whose postcheck fails IS reported as
`ok = false` with reason `"postcheck"` and the graph rolled back (the
active-edge count is restored), BUT the executor's `world_transform` map is
NOT the pre-attempt map: re-propagation inside the postcheck has already
overwritten module 6's cached pose (with a Z-flipped frame from the live
site constraint of the pre-existing edge `5–6`), and the rollback only
detaches the new edge. -/
theorem postcheck_failure_leaves_mutated_poses :
    ∃ r g' ex', apply_event gC1 exC1 evC1 pC1 solverW = (.result r, g', ex') ∧
      r.ok = false ∧ r.reason = "postcheck" ∧
      activeCount g' = activeCount gC1 ∧ ex'.T_world ≠ exC1.T_world := by
  refine ⟨REC1, gRolledC1, exPostC1, c1_eval, rfl, rfl, rfl, ?_⟩
  intro hEq
  have h2 : ([(5, (1 : Mat4)), (6, T6), (1, 1), (3, translate4 5 0 0)] :
      List (Int × Mat4)) =
      [(5, 1), (6, 1), (1, 1), (3, translate4 5 0 0)] := hEq
  simp only [List.cons.injEq, Prod.mk.injEq] at h2
  have h6 : T6 = 1 := h2.2.1.2
  have hT600 : T6 0 0 = -1 := T6_00
  rw [h6, Matrix.one_apply_eq] at hT600
  norm_num at hT600

/-- C1 witness: the amended theorem applied to the concrete failing-postcheck
attach of the counterexample scenario. -/
theorem apply_event_postcheck_rollback_witness :
    REC1.ok = false ∧ activeCount gRolledC1 = activeCount gC1 :=
  apply_event_postcheck_rollback gC1 exC1 evC1 pC1 solverW REC1 gRolledC1
    exPostC1 rfl rfl rfl c1_eval rfl
